import Mathlib

/-!
Shallow embedding of the Weather_Microservice repository (FastAPI + SQLAlchemy
weather-ingestion service) and proofs about its specification claims.

The embedding covers:
* a model of Python `datetime.date` (proleptic Gregorian calendar dates,
  one-day steps via `timedelta(days=1)`, ordinal-based comparison);
* `app/services/ingestion_service.py` (`IngestionService`): `add_months`,
  `iter_chunks_max_6_months`, `fetch_with_backoff`, `_compute_start_date`,
  `_available_end_date`, and the `sync` orchestration loop;
* `app/services/providers/aemet_client.py` (`AemetClient.parse_numeric`);
* `app/services/providers/meteocat_client.py`
  (`MeteocatClient.parse_daily_payload`);
* `app/repositories/station_repository.py`
  (`StationRepository.create_if_not_exists`, `get_by_source_id`);
* `app/repositories/weather_observation_repository.py`
  (`WeatherObservationRepository.upsert_observation`,
  `get_latest_ts_by_station`);
* `app/routers/ingestion.py` (`ingestion_daily`).

Database tables are modelled as in-memory lists of rows; the SQL unique
constraints become explicit row-count hypotheses.  Python `float` values are
modelled as rationals.
-/

set_option autoImplicit false


/-! ## Calendar dates (model of Python `datetime.date`)

A Python `date` is a proleptic Gregorian calendar date with year at least 1.
Comparison and day arithmetic (`timedelta(days=1)`) go through the ordinal
(`date.toordinal`); here `toRD` plays that role.
-/

/-- Number of days in a Gregorian month (model of the calendar used by
Python `datetime.date`). -/
def daysInMonth (y m : Nat) : Nat :=
  if m = 2 then (if (y % 4 = 0 ∧ y % 100 ≠ 0) ∨ y % 400 = 0 then 29 else 28)
  else if m = 4 ∨ m = 6 ∨ m = 9 ∨ m = 11 then 30
  else 31

/-- A calendar date, as in Python `datetime.date(year, month, day)`. -/
structure Date where
  year : Nat
  month : Nat
  day : Nat
deriving DecidableEq, Repr

/-- Validity of a `Date`: exactly the constructor constraints of
`datetime.date` (year at least 1, month 1..12, day 1..last day of month). -/
def Date.valid (d : Date) : Prop :=
  1 ≤ d.year ∧ 1 ≤ d.month ∧ d.month ≤ 12 ∧ 1 ≤ d.day ∧ d.day ≤ daysInMonth d.year d.month

instance (d : Date) : Decidable d.valid := by
  unfold Date.valid; infer_instance

/-- Month index: months elapsed since January of year 1. -/
def mIdx (y m : Nat) : Nat := (y - 1) * 12 + (m - 1)

/-- Days in the month with month index `t`. -/
def daysInMonthIdx (t : Nat) : Nat := daysInMonth (t / 12 + 1) (t % 12 + 1)

/-- Days elapsed before the first day of the month with month index `t`. -/
def monthStart : Nat → Nat
  | 0 => 0
  | t + 1 => monthStart t + daysInMonthIdx t

/-- Rata-die style ordinal of a date (model of `date.toordinal`): strictly
monotone along the calendar, steps by one from a day to the next. -/
def toRD (d : Date) : Nat := monthStart (mIdx d.year d.month) + d.day

/-- Next calendar day (model of `d + timedelta(days=1)`). -/
def Date.succ (d : Date) : Date :=
  if d.day < daysInMonth d.year d.month then ⟨d.year, d.month, d.day + 1⟩
  else if d.month < 12 then ⟨d.year, d.month + 1, 1⟩
  else ⟨d.year + 1, 1, 1⟩

/-- Previous calendar day (model of `d - timedelta(days=1)`). -/
def Date.pred (d : Date) : Date :=
  if 1 < d.day then ⟨d.year, d.month, d.day - 1⟩
  else if 1 < d.month then ⟨d.year, d.month - 1, daysInMonth d.year (d.month - 1)⟩
  else ⟨d.year - 1, 12, 31⟩

/-- Model of `IngestionService.BACKFILL_START = date(2024, 1, 1)`. -/
def IngestionService.BACKFILL_START : Date := ⟨2024, 1, 1⟩

/-- Model of `IngestionService.add_months`: shift a date by `months` months,
clamping the day of month to the last valid day of the target month, computed
in the source as "first day of the next month minus one day". -/
def IngestionService.add_months (d : Date) (months : Nat) : Date :=
  let y := d.year + (d.month - 1 + months) / 12
  let m := (d.month - 1 + months) % 12 + 1
  let first_next_month :=
    if m < 12 then Date.mk (y + m / 12) (m % 12 + 1) 1 else Date.mk (y + 1) 1 1
  let last_day := first_next_month.pred
  Date.mk y m (min d.day last_day.day)

/-- One unrolling of the generator loop of
`IngestionService.iter_chunks_max_6_months`, with explicit fuel bounding the
number of loop iterations (the Python `while cur <= end_d` loop terminates
because `cur` strictly advances each iteration; the fuel chosen in
`iter_chunks_max_6_months` below is sufficient, as proved in
`iterChunksGo_good`).  Date comparisons go through `toRD`, the model of
Python `date` ordering. -/
def IngestionService.iterChunksGo (end_d : Date) : Nat → Date → List (Date × Date)
  | 0, _ => []
  | fuel + 1, cur =>
    if toRD cur ≤ toRD end_d then
      let ce0 := (add_months cur 6).pred
      let chunk_end := if toRD end_d < toRD ce0 then end_d else ce0
      (cur, chunk_end) :: iterChunksGo end_d fuel chunk_end.succ
    else []

/-- Model of `IngestionService.iter_chunks_max_6_months`: split
`[start_d, end_d]` into chunks, each ending at
`min(end_d, add_months(chunk_start, 6) - 1 day)`. -/
def IngestionService.iter_chunks_max_6_months (start_d end_d : Date) : List (Date × Date) :=
  iterChunksGo end_d (toRD end_d + 1 - toRD start_d) start_d

/-- Invariant of the chunk list produced from a cursor with ordinal `lo`:
chunks are adjacent, valid, stay within `end_d` and each spans less than the
6-month shifted bound of its start. -/
def IngestionService.chunksGood (end_d : Date) : Nat → List (Date × Date) → Prop
  | lo, [] => toRD end_d < lo
  | lo, c :: rest =>
      c.1.valid ∧ c.2.valid ∧ toRD c.1 = lo ∧ lo ≤ toRD c.2 ∧ toRD c.2 ≤ toRD end_d ∧
      toRD c.2 < toRD (add_months c.1 6) ∧ chunksGood end_d (toRD c.2 + 1) rest

/-! ## Provider adapters -/

/-- Model of Python `s.replace(",", ".")` for the single-character pattern
used by `AemetClient.parse_numeric`. -/
def pyReplaceCommaDot (s : String) : String :=
  String.mk (s.toList.map (fun c => if c = ',' then '.' else c))

/-- Numeric value of a list of decimal digit characters. -/
def digitsVal (l : List Char) : Nat :=
  l.foldl (fun a c => a * 10 + (c.toNat - 48)) 0

/-- Model of Python `float(s)` restricted to plain decimal literals
(optional sign, integer part, optional fractional part).  Any other string
raises `ValueError` in Python, modelled as `none`.  (Python `float` also
accepts exponents, `inf`/`nan` and surrounding whitespace; those inputs do
not occur in the claims settled here.) -/
def pyFloat? (s : String) : Option ℚ :=
  let cs := s.toList
  let signed : ℚ × List Char :=
    match cs with
    | '-' :: r => (-1, r)
    | '+' :: r => (1, r)
    | r => (1, r)
  let sign := signed.1
  let rest := signed.2
  let ip := rest.takeWhile (fun c => c ≠ '.')
  let rest2 := rest.drop ip.length
  match rest2 with
  | [] =>
    if ip ≠ [] ∧ ip.all Char.isDigit then some (sign * (digitsVal ip : ℚ)) else none
  | _ :: fp =>
    if (ip ≠ [] ∨ fp ≠ []) ∧ ip.all Char.isDigit ∧ fp.all Char.isDigit then
      some (sign * ((digitsVal ip : ℚ) + (digitsVal fp : ℚ) / (10 : ℚ) ^ fp.length))
    else none

/-- Model of `AemetClient.parse_numeric`: `None` maps to `None`; otherwise
replace the decimal comma by a dot and attempt `float(...)`, mapping any
parse failure to `None` (the `try`/`except` in the source). -/
def AemetClient.parse_numeric (v : Option String) : Option ℚ :=
  match v with
  | none => none
  | some s => pyFloat? (pyReplaceCommaDot s)

/-- One reading inside a Meteocat variable (`lectures` entry); `valor` is the
numeric value, absent when the JSON value is `null`. -/
structure MeteocatClient.Lecture where
  valor : Option ℚ
deriving DecidableEq, Repr

/-- One Meteocat variable: a `codi` (numeric code, absent when the key is
missing) and an optional list of readings (`lectures`). -/
structure MeteocatClient.MVariable where
  codi : Option Int
  lectures : Option (List MeteocatClient.Lecture)
deriving DecidableEq, Repr

/-- The JSON object at the root of a Meteocat daily payload: either not a
dict, or a dict whose `variables` key is absent or holds a list. -/
inductive MeteocatClient.MRoot where
  | nonDict
  | dict (vars : Option (List MeteocatClient.MVariable))
deriving DecidableEq, Repr

/-- A raw Meteocat daily payload as passed to `parse_daily_payload`:
`falsy` covers every Python-falsy payload (`None`, `{}`, `[]`, `""`, `0`);
`listPayload` a truthy list (the parser takes its first element);
`direct` any other truthy value. -/
inductive MeteocatClient.MRaw where
  | falsy
  | listPayload (hd : MeteocatClient.MRoot) (tl : List MeteocatClient.MRoot)
  | direct (r : MeteocatClient.MRoot)
deriving DecidableEq, Repr

/-- Accumulator state of the `for var in variables` loop in
`parse_daily_payload`: running totals/counts for codes 35 and 32 and the
running max/min for codes 40 and 42. -/
structure MeteocatClient.PState where
  t35 : ℚ
  c35 : Nat
  t32 : ℚ
  c32 : Nat
  tmax : Option ℚ
  tmin : Option ℚ
deriving DecidableEq, Repr

/-- Model of Python `str(var.get("codi"))` with `codi` a JSON integer or
missing (`str(None) = "None"`). -/
def MeteocatClient.strOfCodi : Option Int → String
  | none => "None"
  | some n => toString n

/-- One iteration of the `for var in variables` loop of
`parse_daily_payload`: dispatch on the stringified code and fold over the
readings of this variable (`var.get("lectures") or []`), skipping `null`
values. -/
def MeteocatClient.stepVar (st : MeteocatClient.PState) (var : MeteocatClient.MVariable) :
    MeteocatClient.PState :=
  let code := MeteocatClient.strOfCodi var.codi
  let lectures := var.lectures.getD []
  if code = "35" then
    lectures.foldl (fun s lec =>
      match lec.valor with
      | none => s
      | some v => { s with t35 := s.t35 + v, c35 := s.c35 + 1 }) st
  else if code = "32" then
    lectures.foldl (fun s lec =>
      match lec.valor with
      | none => s
      | some v => { s with t32 := s.t32 + v, c32 := s.c32 + 1 }) st
  else if code = "40" then
    lectures.foldl (fun s lec =>
      match lec.valor with
      | none => s
      | some v => { s with tmax := some (match s.tmax with | none => v | some m => max m v) }) st
  else if code = "42" then
    lectures.foldl (fun s lec =>
      match lec.valor with
      | none => s
      | some v => { s with tmin := some (match s.tmin with | none => v | some m => min m v) }) st
  else st

/-- The `variables` lookup: `root.get("variables") if isinstance(root, dict)
else None`. -/
def MeteocatClient.rootVariables : MeteocatClient.MRoot → Option (List MeteocatClient.MVariable)
  | .nonDict => none
  | .dict v => v

/-- The main body of `parse_daily_payload` on the unwrapped root object:
guard `if not variables`, fold the variables, then build
`(tmin, tmax, precip, tavg)` with code-32/35 means taken only when the
count is positive. -/
def MeteocatClient.parseFromRoot (root : MeteocatClient.MRoot) :
    Option ℚ × Option ℚ × Option ℚ × Option ℚ :=
  match MeteocatClient.rootVariables root with
  | none => (none, none, none, none)
  | some [] => (none, none, none, none)
  | some vars =>
    let st := vars.foldl MeteocatClient.stepVar ⟨0, 0, 0, 0, none, none⟩
    let tavg := if st.c32 > 0 then some (st.t32 / (st.c32 : ℚ)) else none
    let precip := if st.c35 > 0 then some (st.t35 / (st.c35 : ℚ)) else none
    (st.tmin, st.tmax, precip, tavg)

/-- Model of `MeteocatClient.parse_daily_payload`: unwrap a one-element list
payload (`raw[0] if isinstance(raw, list) and raw else raw`), return all
`None` on a falsy payload, then dispatch to `parseFromRoot`.  Returns
`(tmin, tmax, precip, tavg)` as the source does. -/
def MeteocatClient.parse_daily_payload (raw : MeteocatClient.MRaw) :
    Option ℚ × Option ℚ × Option ℚ × Option ℚ :=
  match raw with
  | .falsy => (none, none, none, none)
  | .listPayload hd _ => MeteocatClient.parseFromRoot hd
  | .direct r => MeteocatClient.parseFromRoot r

/-- Specification-side definition (from the spec text): the readings of all
variables carrying a given code, with `null` readings dropped. -/
def MeteocatClient.readingsUnder (vars : List MeteocatClient.MVariable) (code : String) :
    List ℚ :=
  vars.foldr (fun v acc =>
    if MeteocatClient.strOfCodi v.codi = code
    then (v.lectures.getD []).filterMap MeteocatClient.Lecture.valor ++ acc
    else acc) []

/-- Specification-side definition: readings under a code for a whole raw
payload (empty for falsy or non-dict payloads, unwrapping a list payload). -/
def MeteocatClient.rawReadings (raw : MeteocatClient.MRaw) (code : String) : List ℚ :=
  match raw with
  | .falsy => []
  | .listPayload hd _ => MeteocatClient.readingsUnder ((MeteocatClient.rootVariables hd).getD []) code
  | .direct r => MeteocatClient.readingsUnder ((MeteocatClient.rootVariables r).getD []) code

/-- Specification-side definition: mean of a list of readings, absent when
there are none. -/
def MeteocatClient.meanOfReadings (l : List ℚ) : Option ℚ :=
  if 0 < l.length then some (l.sum / (l.length : ℚ)) else none

/-- Specification-side definition: running maximum of a list of readings. -/
def MeteocatClient.maxOfReadings (l : List ℚ) : Option ℚ :=
  l.foldl (fun acc v => some (match acc with | none => v | some m => max m v)) none

/-- Specification-side definition: running minimum of a list of readings. -/
def MeteocatClient.minOfReadings (l : List ℚ) : Option ℚ :=
  l.foldl (fun acc v => some (match acc with | none => v | some m => min m v)) none

/-! ## Repositories (tables as in-memory row lists) -/

/-- A row of the `stations` table (internal autoincrement `id`, provider
`source`, provider-native `source_station_id`, optional display `name`). -/
structure Station where
  id : Nat
  source : String
  source_station_id : String
  name : Option String
deriving DecidableEq, Repr

/-- The `stations` table plus its autoincrement counter. -/
structure StationDB where
  rows : List Station
  nextId : Nat
deriving DecidableEq, Repr

/-- Model of `StationRepository.get_by_source_id`: the station with the given
provider identity, if any (the unique constraint keeps at most one). -/
def StationRepository.get_by_source_id (db : StationDB) (source source_station_id : String) :
    Option Station :=
  db.rows.find? (fun st => st.source == source && st.source_station_id == source_station_id)

/-- Model of `StationRepository.create_if_not_exists`: return the existing row
untouched, or insert a new row with the next internal id. -/
def StationRepository.create_if_not_exists (db : StationDB) (source source_station_id : String)
    (name : Option String) : StationDB × Station :=
  match StationRepository.get_by_source_id db source source_station_id with
  | some station => (db, station)
  | none =>
    let station : Station := ⟨db.nextId, source, source_station_id, name⟩
    ({ rows := db.rows ++ [station], nextId := db.nextId + 1 }, station)

/-- Fold a list of `create_if_not_exists` calls (source, native id, name)
over a station table. -/
def StationRepository.applyCreates (db : StationDB)
    (calls : List (String × String × Option String)) : StationDB :=
  calls.foldl (fun d c => (StationRepository.create_if_not_exists d c.1 c.2.1 c.2.2).1) db

/-- A row of the `weather_observations` table, generic in the timestamp type
`τ` (`Date` in the sync model, a bare key otherwise) and the opaque raw
payload type `ρ`.  All four measurement columns are nullable, as is `raw`. -/
structure Obs (τ ρ : Type) where
  station_id : Nat
  ts : τ
  tmin : Option ℚ
  tmax : Option ℚ
  tavg : Option ℚ
  precip : Option ℚ
  raw : Option ρ
deriving DecidableEq, Repr

/-- Model of `WeatherObservationRepository.upsert_observation`: find the row
with the same `(station_id, ts)` identity; if present overwrite every
measurement field and the raw payload, otherwise insert a new row.  Returns
the updated table and the stored row. -/
def WeatherObservationRepository.upsert_observation {τ ρ : Type} [DecidableEq τ] :
    List (Obs τ ρ) → Nat → τ → Option ℚ → Option ℚ → Option ℚ → Option ℚ → Option ρ →
      List (Obs τ ρ) × Obs τ ρ
  | [], station_id, ts, tmin, tmax, tavg, precip, raw =>
    let o : Obs τ ρ := ⟨station_id, ts, tmin, tmax, tavg, precip, raw⟩
    ([o], o)
  | o :: rest, station_id, ts, tmin, tmax, tavg, precip, raw =>
    if o.station_id = station_id ∧ o.ts = ts then
      let o2 := { o with tmin := tmin, tmax := tmax, tavg := tavg, precip := precip, raw := raw }
      (o2 :: rest, o2)
    else
      let r := WeatherObservationRepository.upsert_observation rest station_id ts tmin tmax tavg precip raw
      (o :: r.1, r.2)

/-- Number of observation rows with the given `(station_id, ts)` identity. -/
def WeatherObservationRepository.countKey {τ ρ : Type} [DecidableEq τ]
    (db : List (Obs τ ρ)) (station_id : Nat) (ts : τ) : Nat :=
  (db.filter (fun o => decide (o.station_id = station_id ∧ o.ts = ts))).length

/-- First observation row with the given `(station_id, ts)` identity. -/
def WeatherObservationRepository.lookupKey {τ ρ : Type} [DecidableEq τ]
    (db : List (Obs τ ρ)) (station_id : Nat) (ts : τ) : Option (Obs τ ρ) :=
  db.find? (fun o => decide (o.station_id = station_id ∧ o.ts = ts))

/-- The argument bundle of one `upsert_observation` call for a fixed
identity: the four measurement values and the raw payload. -/
structure ObsVals (ρ : Type) where
  tmin : Option ℚ
  tmax : Option ℚ
  tavg : Option ℚ
  precip : Option ℚ
  raw : Option ρ
deriving DecidableEq, Repr

/-- The row stored by an upsert with values `v` for identity
`(station_id, ts)`. -/
def WeatherObservationRepository.obsOf {τ ρ : Type} (station_id : Nat) (ts : τ)
    (v : ObsVals ρ) : Obs τ ρ :=
  ⟨station_id, ts, v.tmin, v.tmax, v.tavg, v.precip, v.raw⟩

/-- Fold a list of `upsert_observation` calls for one identity over a
table. -/
def WeatherObservationRepository.applyUpserts {τ ρ : Type} [DecidableEq τ]
    (db : List (Obs τ ρ)) (station_id : Nat) (ts : τ) (vs : List (ObsVals ρ)) :
    List (Obs τ ρ) :=
  vs.foldl (fun d v =>
    (WeatherObservationRepository.upsert_observation d station_id ts
      v.tmin v.tmax v.tavg v.precip v.raw).1) db

/-- Model of `WeatherObservationRepository.get_latest_ts_by_station`
(`SELECT max(ts) WHERE station_id = ...`), on the day-keyed table of the
sync model: maximum by the date ordinal. -/
def WeatherObservationRepository.get_latest_ts_by_station {ρ : Type}
    (db : List (Obs Date ρ)) (station_id : Nat) : Option Date :=
  db.foldl (fun acc o =>
    if o.station_id = station_id then
      some (match acc with
            | none => o.ts
            | some m => if toRD m < toRD o.ts then o.ts else m)
    else acc) none

/-! ## IngestionService: planner, retry controller, orchestrator -/

/-- Model of `IngestionService._ts_for_day`: the stored timestamp is the
00:00 UTC instant of the day, which identifies the day itself; the sync
model therefore keys observations directly by the `Date`. -/
def IngestionService.ts_for_day (d : Date) : Date := d

/-- Model of `IngestionService._compute_start_date`: last stored day plus
one, or `BACKFILL_START` when the station has no observations. -/
def IngestionService.compute_start_date {ρ : Type} (db : List (Obs Date ρ))
    (station_id : Nat) : Date :=
  match WeatherObservationRepository.get_latest_ts_by_station db station_id with
  | none => IngestionService.BACKFILL_START
  | some latest_day => latest_day.succ

/-- Model of `IngestionService._available_end_date`: yesterday relative to
the current UTC date, for any provider argument. -/
def IngestionService.available_end_date (provider : String) (today : Date) : Date :=
  today.pred

/-- Outcome of one invocation of the async callable passed to
`fetch_with_backoff`: a value, an `httpx.HTTPStatusError` with a status
code, or any other exception. -/
inductive FetchOutcome (α : Type) where
  | ok (v : α)
  | httpError (status : Nat)
  | otherError (msg : String)
deriving DecidableEq, Repr

/-- Result of `fetch_with_backoff`: the returned value, the implicit `None`
return when the attempt loop body never runs, a re-raised non-429 HTTP
error, a propagated non-HTTP exception, or the distinguished rate-limit
`RuntimeError`. -/
inductive BackoffResult (α : Type) where
  | value (v : α)
  | noneResult
  | raisedHTTP (status : Nat)
  | raisedOther (msg : String)
  | rateLimitExceeded
deriving DecidableEq, Repr

/-- The attempt loop of `IngestionService.fetch_with_backoff`.  `fn i` is the
outcome of the i-th invocation of the callable; `attempt` is the current
attempt number and the fuel counts the remaining iterations of
`range(1, max_retries + 1)`.  Returns the result, the number of times the
callable ran, and the list of sleep durations performed. -/
def IngestionService.fetchWithBackoffGo {α : Type} (fn : Nat → FetchOutcome α)
    (max_retries : Int) (sleep_seconds : Nat) : Nat → Nat → BackoffResult α × Nat × List Nat
  | _, 0 => (.noneResult, 0, [])
  | attempt, fuel + 1 =>
    match fn attempt with
    | .ok v => (.value v, 1, [])
    | .otherError e => (.raisedOther e, 1, [])
    | .httpError s =>
      if s = 429 then
        if max_retries ≤ (attempt : Int) then (.rateLimitExceeded, 1, [])
        else
          let r := IngestionService.fetchWithBackoffGo fn max_retries sleep_seconds (attempt + 1) fuel
          (r.1, r.2.1 + 1, sleep_seconds :: r.2.2)
      else (.raisedHTTP s, 1, [])

/-- Model of `IngestionService.fetch_with_backoff(fn, max_retries,
sleep_seconds)`: run the attempt loop starting at attempt 1; the loop runs
at most `max_retries` times (none at all when `max_retries` is not
positive, in which case the function falls through and returns `None`). -/
def IngestionService.fetch_with_backoff {α : Type} (fn : Nat → FetchOutcome α)
    (max_retries : Int) (sleep_seconds : Nat) : BackoffResult α × Nat × List Nat :=
  IngestionService.fetchWithBackoffGo fn max_retries sleep_seconds 1 max_retries.toNat

/-- The day-by-day loop bound of the Meteocat branch of `sync`
(`d = start_d; while d <= end_d: ...; d += timedelta(days=1)`), with fuel
as in `iterChunksGo`. -/
def IngestionService.dayRangeGo (end_d : Date) : Nat → Date → List Date
  | 0, _ => []
  | fuel + 1, d =>
    if toRD d ≤ toRD end_d then d :: IngestionService.dayRangeGo end_d fuel d.succ else []

/-- The list of days iterated by the Meteocat branch of `sync` for a planned
inclusive range. -/
def IngestionService.dayRange (start_d end_d : Date) : List Date :=
  IngestionService.dayRangeGo end_d (toRD end_d + 1 - toRD start_d) start_d

/-! ## The sync orchestrator, over abstracted provider environments -/

/-- One row of an AEMET per-station range response, as consumed by `sync`:
the `fecha` day (absent models a missing or falsy `fecha`, which the loop
skips) and the four locale-encoded numeric fields. -/
structure AemetRow where
  fecha : Option Date
  tmin : Option String
  tmax : Option String
  prec : Option String
  tmed : Option String
deriving DecidableEq, Repr

/-- An opaque raw payload stored in the `raw` column by `sync`: the AEMET
row itself or the Meteocat daily payload. -/
inductive RawData where
  | aemet (item : AemetRow)
  | meteocat (payload : MeteocatClient.MRaw)
deriving DecidableEq, Repr

/-- The observation table of the sync model. -/
abbrev ObsDB : Type := List (Obs Date RawData)

/-- One entry of the AEMET station inventory, with the keys `sync` reads. -/
structure AemetMeta where
  idema : Option String
  indicativo : Option String
  id : Option String
  nombre : Option String
  name : Option String
deriving DecidableEq, Repr

/-- One entry of the Meteocat station list, with the keys `sync` reads. -/
structure MeteocatMeta where
  codi : Option String
  code : Option String
  id : Option String
  nom : Option String
  name : Option String
deriving DecidableEq, Repr

/-- Python truthiness of an optional string (`None` and `""` are falsy). -/
def truthy (o : Option String) : Bool :=
  match o with
  | none => false
  | some s => !s.isEmpty

/-- Model of Python `a or b` on optional strings. -/
def orTruthy (a b : Option String) : Option String :=
  if truthy a then a else b

/-- The station id chosen by the AEMET loop:
`meta.get("idema") or meta.get("indicativo") or meta.get("id")`, with the
`if not sid: continue` guard folded in (`none` means the entry is skipped). -/
def AemetMeta.pickId (m : AemetMeta) : Option String :=
  let sid := orTruthy m.idema (orTruthy m.indicativo m.id)
  if truthy sid then sid else none

/-- The station name chosen by the AEMET loop:
`meta.get("nombre") or meta.get("name")`. -/
def AemetMeta.pickName (m : AemetMeta) : Option String :=
  orTruthy m.nombre m.name

/-- The station code chosen by the Meteocat loop:
`meta.get("codi") or meta.get("code") or meta.get("id")` with the
`if not code: continue` guard folded in. -/
def MeteocatMeta.pickId (m : MeteocatMeta) : Option String :=
  let code := orTruthy m.codi (orTruthy m.code m.id)
  if truthy code then code else none

/-- The station name chosen by the Meteocat loop:
`meta.get("nom") or meta.get("name")`. -/
def MeteocatMeta.pickName (m : MeteocatMeta) : Option String :=
  orTruthy m.nom m.name

/-- Abstracted AEMET side of the outside world for one `sync` run:
the station-list call (`.error` models any exception raised while building
the client or fetching the list) and the per-station per-chunk range fetch
as seen through `fetch_with_backoff` (`.error` models any exception
escaping the chunk body: HTTP errors, rate-limit exhaustion, malformed
`fecha` parsing, storage errors). -/
structure AemetEnv where
  listResult : Except String (List AemetMeta)
  fetchRange : String → Date → Date → Except String (List AemetRow)

/-- Abstracted Meteocat side of one `sync` run, analogous to `AemetEnv`
with a per-station per-day fetch. -/
structure MeteocatEnv where
  listResult : Except String (List MeteocatMeta)
  fetchDay : String → Date → Except String MeteocatClient.MRaw

/-- The world one `sync` run interacts with: both providers and the current
UTC date. -/
structure SyncEnv where
  aemet : AemetEnv
  meteocat : MeteocatEnv
  today : Date

/-- Result of processing the chunks/days of one station: updated
observation table, observations upserted, failure-counter increment and
number of fetch calls issued. -/
structure ChunkRes where
  odb : ObsDB
  obs : Nat
  failCount : Nat
  fetchCalls : Nat
deriving DecidableEq, Repr

/-- Result of one provider section (or one station) of `sync`. -/
structure ProvRes where
  sdb : StationDB
  odb : ObsDB
  stations : Nat
  obs : Nat
  failCount : Nat
  fetchCalls : Nat
deriving DecidableEq, Repr

/-- The inner `for item in rows` loop of the AEMET branch: skip rows without
a `fecha`, parse the four numeric fields with `parse_numeric`, and upsert
one observation per remaining row (with `tavg` taken from `tmed`),
counting each upsert. -/
def IngestionService.upsertAemetRows (station_id : Nat) (rows : List AemetRow)
    (odb : ObsDB) : ObsDB × Nat :=
  rows.foldl (fun acc item =>
    match item.fecha with
    | none => acc
    | some day =>
      let ts := IngestionService.ts_for_day day
      let tmin := AemetClient.parse_numeric item.tmin
      let tmax := AemetClient.parse_numeric item.tmax
      let precip := AemetClient.parse_numeric item.prec
      let tmed := AemetClient.parse_numeric item.tmed
      let r := WeatherObservationRepository.upsert_observation acc.1 station_id ts
        tmin tmax tmed precip (some (.aemet item))
      (r.1, acc.2 + 1)) (odb, 0)

/-- The `for chunk_start, chunk_end in iter_chunks...` loop of the AEMET
branch with its surrounding `try`: chunks are fetched and upserted in
order; the first failing chunk increments the station failure counter by
one and abandons the remaining chunks, keeping earlier upserts. -/
def IngestionService.processAemetChunks (fetch : Date × Date → Except String (List AemetRow))
    (station_id : Nat) : List (Date × Date) → ObsDB → ChunkRes
  | [], odb => ⟨odb, 0, 0, 0⟩
  | c :: rest, odb =>
    match fetch c with
    | .error _ => ⟨odb, 0, 1, 1⟩
    | .ok rows =>
      let u := IngestionService.upsertAemetRows station_id rows odb
      let r := IngestionService.processAemetChunks fetch station_id rest u.1
      ⟨r.odb, u.2 + r.obs, r.failCount, r.fetchCalls + 1⟩

/-- One iteration of the `for meta in aemet_stations` loop: skip entries
without a usable id, upsert the station (counting it), plan the range, skip
fetching when already up to date, otherwise process the chunks. -/
def IngestionService.processAemetStation (env : AemetEnv) (today : Date)
    (sdb : StationDB) (odb : ObsDB) (meta : AemetMeta) : ProvRes :=
  match meta.pickId with
  | none => ⟨sdb, odb, 0, 0, 0, 0⟩
  | some sid =>
    let cr := StationRepository.create_if_not_exists sdb "aemet" sid meta.pickName
    let start_d := IngestionService.compute_start_date odb cr.2.id
    let end_d := IngestionService.available_end_date "aemet" today
    if toRD end_d < toRD start_d then ⟨cr.1, odb, 1, 0, 0, 0⟩
    else
      let chunks := IngestionService.iter_chunks_max_6_months start_d end_d
      let pr := IngestionService.processAemetChunks
        (fun c => env.fetchRange sid c.1 c.2) cr.2.id chunks odb
      ⟨cr.1, pr.odb, 1, pr.obs, pr.failCount, pr.fetchCalls⟩

/-- The `for meta in aemet_stations` loop over the whole inventory,
threading the station and observation tables and summing the counters. -/
def IngestionService.processAemetStations (env : AemetEnv) (today : Date) :
    List AemetMeta → StationDB → ObsDB → ProvRes
  | [], sdb, odb => ⟨sdb, odb, 0, 0, 0, 0⟩
  | m :: rest, sdb, odb =>
    let r1 := IngestionService.processAemetStation env today sdb odb m
    let r2 := IngestionService.processAemetStations env today rest r1.sdb r1.odb
    ⟨r2.sdb, r2.odb, r1.stations + r2.stations, r1.obs + r2.obs,
      r1.failCount + r2.failCount, r1.fetchCalls + r2.fetchCalls⟩

/-- The AEMET section of `sync` with its outer `try`: a failing station-list
call contributes nothing and records the exception text under the `aemet`
failure key; otherwise the station loop runs. -/
def IngestionService.aemetSection (env : AemetEnv) (today : Date)
    (sdb : StationDB) (odb : ObsDB) : ProvRes × Option String :=
  match env.listResult with
  | .error msg => (⟨sdb, odb, 0, 0, 0, 0⟩, some msg)
  | .ok metas => (IngestionService.processAemetStations env today metas sdb odb, none)

/-- The `while d <= end_d` day loop of the Meteocat branch with its inner
`try`: each day is fetched, parsed and upserted; the first failing day
increments the failure counter by one and breaks to the next station,
keeping earlier upserts. -/
def IngestionService.processMeteocatDays (fetch : Date → Except String MeteocatClient.MRaw)
    (station_id : Nat) : List Date → ObsDB → ChunkRes
  | [], odb => ⟨odb, 0, 0, 0⟩
  | d :: rest, odb =>
    match fetch d with
    | .error _ => ⟨odb, 0, 1, 1⟩
    | .ok raw =>
      let p := MeteocatClient.parse_daily_payload raw
      let u := WeatherObservationRepository.upsert_observation odb station_id
        (IngestionService.ts_for_day d) p.1 p.2.1 p.2.2.2 p.2.2.1 (some (.meteocat raw))
      let r := IngestionService.processMeteocatDays fetch station_id rest u.1
      ⟨r.odb, r.obs + 1, r.failCount, r.fetchCalls + 1⟩

/-- One iteration of the `for meta in m_stations` loop of the Meteocat
branch, analogous to `processAemetStation` with a day loop instead of a
chunk loop. -/
def IngestionService.processMeteocatStation (env : MeteocatEnv) (today : Date)
    (sdb : StationDB) (odb : ObsDB) (meta : MeteocatMeta) : ProvRes :=
  match meta.pickId with
  | none => ⟨sdb, odb, 0, 0, 0, 0⟩
  | some code =>
    let cr := StationRepository.create_if_not_exists sdb "meteocat" code meta.pickName
    let start_d := IngestionService.compute_start_date odb cr.2.id
    let end_d := IngestionService.available_end_date "meteocat" today
    if toRD end_d < toRD start_d then ⟨cr.1, odb, 1, 0, 0, 0⟩
    else
      let days := IngestionService.dayRange start_d end_d
      let pr := IngestionService.processMeteocatDays
        (fun d => env.fetchDay code d) cr.2.id days odb
      ⟨cr.1, pr.odb, 1, pr.obs, pr.failCount, pr.fetchCalls⟩

/-- The `for meta in m_stations` loop over the whole Meteocat station
list. -/
def IngestionService.processMeteocatStations (env : MeteocatEnv) (today : Date) :
    List MeteocatMeta → StationDB → ObsDB → ProvRes
  | [], sdb, odb => ⟨sdb, odb, 0, 0, 0, 0⟩
  | m :: rest, sdb, odb =>
    let r1 := IngestionService.processMeteocatStation env today sdb odb m
    let r2 := IngestionService.processMeteocatStations env today rest r1.sdb r1.odb
    ⟨r2.sdb, r2.odb, r1.stations + r2.stations, r1.obs + r2.obs,
      r1.failCount + r2.failCount, r1.fetchCalls + r2.fetchCalls⟩

/-- The Meteocat section of `sync` with its outer `try`. -/
def IngestionService.meteocatSection (env : MeteocatEnv) (today : Date)
    (sdb : StationDB) (odb : ObsDB) : ProvRes × Option String :=
  match env.listResult with
  | .error msg => (⟨sdb, odb, 0, 0, 0, 0⟩, some msg)
  | .ok metas => (IngestionService.processMeteocatStations env today metas sdb odb, none)

/-- The response model of `POST /ingestion/daily`
(`IngestionDailyResponse` in app/schemas/ingestion.py), with the two
per-provider counter dictionaries and the failures dictionary flattened
into explicit fields; a failure-counter value of 0 models the absence of
the corresponding `..._station_errors` key. -/
structure IngestionDailyResponse where
  date : Date
  stations_aemet : Nat
  stations_meteocat : Nat
  observations_aemet : Nat
  observations_meteocat : Nat
  failures_aemet : Option String
  failures_aemet_station_errors : Nat
  failures_meteocat : Option String
  failures_meteocat_station_errors : Nat
deriving DecidableEq, Repr

/-- Model of `IngestionService.sync`: run the AEMET section, then the
Meteocat section on the resulting tables, and assemble the response from
the accumulated counters and failures. -/
def IngestionService.sync (env : SyncEnv) (sdb : StationDB) (odb : ObsDB) :
    StationDB × ObsDB × IngestionDailyResponse :=
  let a := IngestionService.aemetSection env.aemet env.today sdb odb
  let m := IngestionService.meteocatSection env.meteocat env.today a.1.sdb a.1.odb
  (m.1.sdb, m.1.odb,
    { date := env.today,
      stations_aemet := a.1.stations, stations_meteocat := m.1.stations,
      observations_aemet := a.1.obs, observations_meteocat := m.1.obs,
      failures_aemet := a.2, failures_aemet_station_errors := a.1.failCount,
      failures_meteocat := m.2, failures_meteocat_station_errors := m.1.failCount })

/-! ## The ingestion router -/

/-- The method names defined by `class IngestionService` in
app/services/ingestion_service.py (the attribute table consulted when the
router evaluates `service.ingest_daily`). -/
def IngestionService.methodNames : List String :=
  ["__init__", "_ts_for_day", "_today_utc", "_available_end_date",
   "_station_next_start_date", "_compute_start_date", "fetch_with_backoff",
   "add_months", "iter_chunks_max_6_months", "sync"]

/-- Outcome of an HTTP handler: a 200 body or a raised `HTTPException`. -/
inductive RouterOutcome (α : Type) where
  | ok (body : α)
  | httpException (status : Nat) (detail : String)
deriving DecidableEq, Repr

/-- Model of the `POST /ingestion/daily` handler (`ingestion_daily` in
app/routers/ingestion.py).  The handler body evaluates
`service.ingest_daily(target_date=payload.date)`; Python first resolves the
attribute `ingest_daily` on the `IngestionService` instance, which raises
`AttributeError` when the class defines no such method, and the
`except Exception` clause turns any exception into
`HTTPException(status_code=500, detail=f"Ingestion failed: ...")`.  Were
the attribute present, the handler would run one synchronous ingestion run
and return its response. -/
def ingestion_daily (env : SyncEnv) (sdb : StationDB) (odb : ObsDB) :
    RouterOutcome IngestionDailyResponse :=
  if "ingest_daily" ∈ IngestionService.methodNames then
    .ok (IngestionService.sync env sdb odb).2.2
  else
    .httpException 500 "Ingestion failed: AttributeError"

/-- Specification of the chunking strategy, packaged for claim C3: every
chunk is a valid, nonempty inclusive date interval inside `[s, e]` spanning
less than the clamped 6-month shift of its start; every day of `[s, e]`
lies in exactly one chunk; consecutive chunks are adjacent (hence emitted
in increasing date order with no gap and no overlap); and the first chunk
starts at `s`. -/
def IngestionService.ChunksSpec (s e : Date) : Prop :=
  (∀ p ∈ IngestionService.iter_chunks_max_6_months s e,
      p.1.valid ∧ p.2.valid ∧ toRD s ≤ toRD p.1 ∧ toRD p.1 ≤ toRD p.2 ∧
      toRD p.2 ≤ toRD e ∧ toRD p.2 < toRD (IngestionService.add_months p.1 6)) ∧
  (∀ x : Nat, toRD s ≤ x → x ≤ toRD e →
      ∃ p, p ∈ IngestionService.iter_chunks_max_6_months s e ∧ toRD p.1 ≤ x ∧ x ≤ toRD p.2) ∧
  (∀ p q, p ∈ IngestionService.iter_chunks_max_6_months s e →
      q ∈ IngestionService.iter_chunks_max_6_months s e →
      ∀ x : Nat, toRD p.1 ≤ x → x ≤ toRD p.2 → toRD q.1 ≤ x → x ≤ toRD q.2 → p = q) ∧
  List.Chain' (fun p q => toRD q.1 = toRD p.2 + 1)
    (IngestionService.iter_chunks_max_6_months s e) ∧
  (IngestionService.iter_chunks_max_6_months s e).head?.map Prod.fst = some s

/-- The immediate `fetch_with_backoff` outcome of an invocation that ends
the attempt loop: a value is returned, a non-429 HTTP error is re-raised,
any other exception propagates. -/
def IngestionService.terminalResult {α : Type} : FetchOutcome α → BackoffResult α
  | .ok v => .value v
  | .httpError s => .raisedHTTP s
  | .otherError e => .raisedOther e

/-- The readings a single variable contributes under a given code. -/
def MeteocatClient.varReadings (var : MeteocatClient.MVariable) (code : String) : List ℚ :=
  if MeteocatClient.strOfCodi var.codi = code
  then (var.lectures.getD []).filterMap MeteocatClient.Lecture.valor
  else []

/-- Running maximum of a list of readings continued from an accumulator. -/
def MeteocatClient.maxFrom (acc : Option ℚ) (l : List ℚ) : Option ℚ :=
  l.foldl (fun a v => some (match a with | none => v | some m => max m v)) acc

/-- Running minimum of a list of readings continued from an accumulator. -/
def MeteocatClient.minFrom (acc : Option ℚ) (l : List ℚ) : Option ℚ :=
  l.foldl (fun a v => some (match a with | none => v | some m => min m v)) acc

/-- Concrete per-day fetch used by the C6 witness: day 0001-01-02 fails,
every other day succeeds with an empty payload. -/
def C6fetch : Date → Except String MeteocatClient.MRaw :=
  fun d => if d = ⟨1, 1, 2⟩ then .error "boom" else .ok .falsy

/-- Concrete observation table used by the C6 witness: one committed row
for station 9 on day 0001-01-01. -/
def C6odb : ObsDB := [⟨9, ⟨1, 1, 1⟩, none, none, none, none, none⟩]

/-- Concrete environment used by the C6 witness: both station-list calls
fail. -/
def C6env : SyncEnv :=
  { aemet := { listResult := .error "a-fail", fetchRange := fun _ _ _ => .ok [] },
    meteocat := { listResult := .error "nope", fetchDay := fun _ d => C6fetch d },
    today := ⟨2, 1, 2⟩ }

/-- A variant of `C6env` differing only in its Meteocat side. -/
def C6envB : SyncEnv :=
  { aemet := { listResult := .error "a-fail", fetchRange := fun _ _ _ => .ok [] },
    meteocat := { listResult := .ok [], fetchDay := fun _ _ => .ok .falsy },
    today := ⟨2, 1, 2⟩ }

/-! ## Theorems -/

theorem daysInMonth_pos (y m : Nat) : 1 ≤ daysInMonth y m := by
  unfold daysInMonth
  split_ifs <;> omega

theorem daysInMonth_le (y m : Nat) : daysInMonth y m ≤ 31 := by
  unfold daysInMonth
  split_ifs <;> omega

theorem daysInMonth_twelve (y : Nat) : daysInMonth y 12 = 31 := by
  unfold daysInMonth
  norm_num

theorem valid_mk (y m d : Nat) :
    (Date.mk y m d).valid ↔ 1 ≤ y ∧ 1 ≤ m ∧ m ≤ 12 ∧ 1 ≤ d ∧ d ≤ daysInMonth y m := Iff.rfl

theorem toRD_mk (y m d : Nat) : toRD ⟨y, m, d⟩ = monthStart (mIdx y m) + d := rfl

theorem daysInMonthIdx_eq (y m : Nat) (hy : 1 ≤ y) (hm1 : 1 ≤ m) (hm2 : m ≤ 12) :
    daysInMonthIdx (mIdx y m) = daysInMonth y m := by
  unfold daysInMonthIdx mIdx
  have hdiv : ((y - 1) * 12 + (m - 1)) / 12 = y - 1 := by omega
  have hmod : ((y - 1) * 12 + (m - 1)) % 12 = m - 1 := by omega
  rw [hdiv, hmod]
  congr 1 <;> omega

theorem monthStart_mono {t t' : Nat} (h : t ≤ t') : monthStart t ≤ monthStart t' := by
  induction t' with
  | zero => simp_all
  | succ n ih =>
    rcases Nat.lt_or_ge t (n + 1) with h' | h'
    · calc monthStart t ≤ monthStart n := ih (by omega)
        _ ≤ monthStart n + daysInMonthIdx n := Nat.le_add_right _ _
        _ = monthStart (n + 1) := rfl
    · have : t = n + 1 := by omega
      simp [this]

theorem monthStart_add_le {t t' : Nat} (h : t < t') :
    monthStart t + daysInMonthIdx t ≤ monthStart t' := by
  have : monthStart (t + 1) ≤ monthStart t' := monthStart_mono h
  simpa [monthStart] using this

theorem toRD_succ {d : Date} (h : d.valid) : toRD d.succ = toRD d + 1 := by
  obtain ⟨hy, hm1, hm2, hd1, hd2⟩ := h
  unfold Date.succ
  split_ifs with h1 h2 <;> rw [toRD_mk]
  · simp only [toRD]; omega
  · have hday : d.day = daysInMonth d.year d.month := by omega
    have hidx : mIdx d.year (d.month + 1) = mIdx d.year d.month + 1 := by
      unfold mIdx; omega
    have hmi := daysInMonthIdx_eq d.year d.month hy hm1 hm2
    simp only [toRD, hidx, monthStart]
    omega
  · have hm : d.month = 12 := by omega
    have h31 : daysInMonth d.year d.month = 31 := by rw [hm]; exact daysInMonth_twelve _
    have hday : d.day = 31 := by omega
    have hidx : mIdx (d.year + 1) 1 = mIdx d.year 12 + 1 := by
      unfold mIdx; omega
    have hmi := daysInMonthIdx_eq d.year 12 hy (by omega) (by omega)
    rw [daysInMonth_twelve] at hmi
    simp only [toRD, hidx, monthStart, hm]
    omega

theorem succ_valid {d : Date} (h : d.valid) : d.succ.valid := by
  obtain ⟨hy, hm1, hm2, hd1, hd2⟩ := h
  unfold Date.succ
  split_ifs with h1 h2 <;> rw [valid_mk]
  · exact ⟨hy, hm1, hm2, by omega, by omega⟩
  · exact ⟨hy, by omega, by omega, by omega, daysInMonth_pos _ _⟩
  · exact ⟨by omega, by omega, by omega, by omega, daysInMonth_pos _ _⟩

theorem toRD_pred {d : Date} (h : d.valid) (hidx : 1 ≤ mIdx d.year d.month) :
    toRD d.pred + 1 = toRD d := by
  obtain ⟨hy, hm1, hm2, hd1, hd2⟩ := h
  unfold Date.pred
  split_ifs with h1 h2 <;> rw [toRD_mk]
  · simp only [toRD]; omega
  · have hm : 2 ≤ d.month := by omega
    have hstep : mIdx d.year d.month = mIdx d.year (d.month - 1) + 1 := by
      unfold mIdx; omega
    have hmi := daysInMonthIdx_eq d.year (d.month - 1) hy (by omega) (by omega)
    simp only [toRD]
    rw [hstep, monthStart]
    omega
  · have hm : d.month = 1 := by omega
    have hy2 : 2 ≤ d.year := by
      simp only [mIdx, hm] at hidx; omega
    have hstep : mIdx d.year d.month = mIdx (d.year - 1) 12 + 1 := by
      unfold mIdx; omega
    have hday : d.day = 1 := by omega
    have hmi := daysInMonthIdx_eq (d.year - 1) 12 (by omega) (by omega) (by omega)
    rw [daysInMonth_twelve] at hmi
    simp only [toRD]
    rw [hstep, monthStart]
    omega

theorem pred_valid {d : Date} (h : d.valid) (hidx : 1 ≤ mIdx d.year d.month) :
    d.pred.valid := by
  obtain ⟨hy, hm1, hm2, hd1, hd2⟩ := h
  unfold Date.pred
  split_ifs with h1 h2 <;> rw [valid_mk]
  · exact ⟨hy, hm1, hm2, by omega, by omega⟩
  · exact ⟨hy, by omega, by omega, daysInMonth_pos _ _, le_refl _⟩
  · have hm : d.month = 1 := by omega
    have hy2 : 2 ≤ d.year := by
      simp only [mIdx, hm] at hidx; omega
    exact ⟨by omega, by omega, by omega, by omega, by rw [daysInMonth_twelve]⟩

theorem pred_mk_first (y m : Nat) (hm : 1 ≤ m) :
    Date.pred ⟨y, m + 1, 1⟩ = ⟨y, m, daysInMonth y m⟩ := by
  unfold Date.pred
  dsimp only
  rw [if_neg (by omega), if_pos (by omega)]
  simp

theorem pred_mk_jan (y : Nat) : Date.pred ⟨y + 1, 1, 1⟩ = ⟨y, 12, 31⟩ := by
  unfold Date.pred
  dsimp only
  rw [if_neg (by omega), if_neg (by omega)]
  simp

theorem IngestionService.add_months_eq (d : Date) (n : Nat) :
    add_months d n = ⟨d.year + (d.month - 1 + n) / 12, (d.month - 1 + n) % 12 + 1,
      min d.day (daysInMonth (d.year + (d.month - 1 + n) / 12) ((d.month - 1 + n) % 12 + 1))⟩ := by
  unfold add_months
  dsimp only
  have hr : (d.month - 1 + n) % 12 < 12 := Nat.mod_lt _ (by norm_num)
  by_cases hc : (d.month - 1 + n) % 12 + 1 < 12
  · rw [if_pos hc]
    rw [Nat.div_eq_of_lt hc, Nat.mod_eq_of_lt hc, Nat.add_zero]
    rw [pred_mk_first _ _ (by omega)]
    simp
  · have h12 : (d.month - 1 + n) % 12 + 1 = 12 := by omega
    rw [if_neg hc, pred_mk_jan]
    rw [h12, daysInMonth_twelve]

theorem IngestionService.add_months_spec (d : Date) (n : Nat) (hd : d.valid) :
    (add_months d n).valid ∧
    mIdx (add_months d n).year (add_months d n).month = mIdx d.year d.month + n ∧
    (add_months d n).day ≤ d.day := by
  obtain ⟨hy, hm1, hm2, hd1, hd2⟩ := hd
  rw [add_months_eq, valid_mk]
  dsimp only
  have hr : (d.month - 1 + n) % 12 < 12 := Nat.mod_lt _ (by norm_num)
  have hdm := Nat.div_add_mod (d.month - 1 + n) 12
  have hpos := daysInMonth_pos (d.year + (d.month - 1 + n) / 12) ((d.month - 1 + n) % 12 + 1)
  refine ⟨⟨by omega, by omega, by omega, by omega, by omega⟩, ?_, by omega⟩
  simp only [mIdx]
  omega

theorem IngestionService.toRD_add_months (d : Date) (n : Nat) (hd : d.valid) (hn : 1 ≤ n) :
    toRD d + 1 ≤ toRD (add_months d n) := by
  obtain ⟨hv, hidx, hday⟩ := add_months_spec d n hd
  have h1 : monthStart (mIdx d.year d.month) + daysInMonthIdx (mIdx d.year d.month) ≤
      monthStart (mIdx (add_months d n).year (add_months d n).month) := by
    apply monthStart_add_le
    omega
  have h2 : d.day ≤ daysInMonthIdx (mIdx d.year d.month) := by
    rw [daysInMonthIdx_eq d.year d.month hd.1 hd.2.1 hd.2.2.1]
    exact hd.2.2.2.2
  have h3 : 1 ≤ (add_months d n).day := hv.2.2.2.1
  unfold toRD
  omega

theorem IngestionService.mIdx_pos_of_add_months (d : Date) (n : Nat) (hd : d.valid) (hn : 1 ≤ n) :
    1 ≤ mIdx (add_months d n).year (add_months d n).month := by
  obtain ⟨_, hidx, _⟩ := add_months_spec d n hd
  omega

theorem IngestionService.iterChunksGo_good (end_d : Date) (he : end_d.valid) :
    ∀ fuel cur, cur.valid → toRD end_d + 1 - toRD cur ≤ fuel →
      chunksGood end_d (toRD cur) (iterChunksGo end_d fuel cur) := by
  intro fuel
  induction fuel with
  | zero =>
    intro cur hc hf
    simp only [iterChunksGo, chunksGood]
    omega
  | succ n ih =>
    intro cur hc hf
    simp only [iterChunksGo]
    by_cases hcond : toRD cur ≤ toRD end_d
    · rw [if_pos hcond]
      have ham := add_months_spec cur 6 hc
      have hamv : (add_months cur 6).valid := ham.1
      have hidx : 1 ≤ mIdx (add_months cur 6).year (add_months cur 6).month := by
        have := ham.2.1; omega
      have hce0v : (add_months cur 6).pred.valid := pred_valid hamv hidx
      have hce0rd : toRD (add_months cur 6).pred + 1 = toRD (add_months cur 6) :=
        toRD_pred hamv hidx
      have hamrd : toRD cur + 1 ≤ toRD (add_months cur 6) :=
        toRD_add_months cur 6 hc (by norm_num)
      set ce := if toRD end_d < toRD (add_months cur 6).pred then end_d
        else (add_months cur 6).pred with hce
      have hcev : ce.valid := by rw [hce]; split_ifs; exacts [he, hce0v]
      have h1 : toRD cur ≤ toRD ce := by rw [hce]; split_ifs <;> omega
      have h2 : toRD ce ≤ toRD end_d := by rw [hce]; split_ifs <;> omega
      have h3 : toRD ce < toRD (add_months cur 6) := by rw [hce]; split_ifs <;> omega
      refine ⟨hc, hcev, rfl, h1, h2, h3, ?_⟩
      have hsv : ce.succ.valid := succ_valid hcev
      have hsr : toRD ce.succ = toRD ce + 1 := toRD_succ hcev
      have := ih ce.succ hsv (by omega)
      rw [hsr] at this
      exact this
    · rw [if_neg hcond]
      simp only [chunksGood]
      omega

theorem IngestionService.chunksGood_mem (end_d : Date) :
    ∀ (L : List (Date × Date)) (lo : Nat), chunksGood end_d lo L →
      ∀ p ∈ L, p.1.valid ∧ p.2.valid ∧ lo ≤ toRD p.1 ∧ toRD p.1 ≤ toRD p.2 ∧
        toRD p.2 ≤ toRD end_d ∧ toRD p.2 < toRD (add_months p.1 6) := by
  intro L
  induction L with
  | nil => intro lo _ p hp; cases hp
  | cons c rest ih =>
    intro lo hg p hp
    obtain ⟨h1, h2, h3, h4, h5, h6, h7⟩ := hg
    rcases List.mem_cons.mp hp with hp | hp
    · subst hp; exact ⟨h1, h2, by omega, by omega, h5, h6⟩
    · have := ih (toRD c.2 + 1) h7 p hp
      refine ⟨this.1, this.2.1, by omega, this.2.2.2.1, this.2.2.2.2.1, this.2.2.2.2.2⟩

theorem IngestionService.chunksGood_cover (end_d : Date) :
    ∀ (L : List (Date × Date)) (lo : Nat), chunksGood end_d lo L →
      ∀ x, lo ≤ x → x ≤ toRD end_d →
        ∃ p, p ∈ L ∧ toRD p.1 ≤ x ∧ x ≤ toRD p.2 := by
  intro L
  induction L with
  | nil =>
    intro lo hg x h1 h2
    simp only [chunksGood] at hg
    omega
  | cons c rest ih =>
    intro lo hg x h1 h2
    obtain ⟨_, _, h3, h4, h5, h6, h7⟩ := hg
    by_cases hx : x ≤ toRD c.2
    · exact ⟨c, List.mem_cons_self _ _, by omega, hx⟩
    · obtain ⟨p, hp, hp1, hp2⟩ := ih (toRD c.2 + 1) h7 x (by omega) h2
      exact ⟨p, List.mem_cons_of_mem _ hp, hp1, hp2⟩

theorem IngestionService.chunksGood_unique (end_d : Date) :
    ∀ (L : List (Date × Date)) (lo : Nat), chunksGood end_d lo L →
      ∀ p q, p ∈ L → q ∈ L → ∀ x, toRD p.1 ≤ x → x ≤ toRD p.2 →
        toRD q.1 ≤ x → x ≤ toRD q.2 → p = q := by
  intro L
  induction L with
  | nil => intro lo _ p q hp; cases hp
  | cons c rest ih =>
    intro lo hg p q hp hq x hpx1 hpx2 hqx1 hqx2
    obtain ⟨_, _, h3, h4, h5, h6, h7⟩ := hg
    rcases List.mem_cons.mp hp with hp | hp <;> rcases List.mem_cons.mp hq with hq | hq
    · rw [hp, hq]
    · exfalso
      have := (chunksGood_mem end_d rest (toRD c.2 + 1) h7 q hq).2.2.1
      subst hp
      omega
    · exfalso
      have := (chunksGood_mem end_d rest (toRD c.2 + 1) h7 p hp).2.2.1
      subst hq
      omega
    · exact ih (toRD c.2 + 1) h7 p q hp hq x hpx1 hpx2 hqx1 hqx2

theorem IngestionService.chunksGood_chain (end_d : Date) :
    ∀ (L : List (Date × Date)) (lo : Nat), chunksGood end_d lo L →
      List.Chain' (fun p q => toRD q.1 = toRD p.2 + 1) L := by
  intro L
  induction L with
  | nil => intro lo _; exact List.chain'_nil
  | cons c rest ih =>
    intro lo hg
    obtain ⟨_, _, h3, h4, h5, h6, h7⟩ := hg
    cases rest with
    | nil => exact List.chain'_singleton _
    | cons c2 rest2 =>
      refine List.Chain'.cons ?_ (ih (toRD c.2 + 1) h7)
      exact h7.2.2.1


theorem IngestionService.iter_chunks_good (s e : Date) (hs : s.valid) (he : e.valid) :
    IngestionService.chunksGood e (toRD s) (IngestionService.iter_chunks_max_6_months s e) :=
  IngestionService.iterChunksGo_good e he _ s hs (by omega)

theorem IngestionService.iter_chunks_head (s e : Date) (hle : toRD s ≤ toRD e) :
    (IngestionService.iter_chunks_max_6_months s e).head?.map Prod.fst = some s := by
  unfold IngestionService.iter_chunks_max_6_months
  obtain ⟨k, hk⟩ : ∃ k, toRD e + 1 - toRD s = k + 1 := ⟨toRD e - toRD s, by omega⟩
  rw [hk]
  simp only [IngestionService.iterChunksGo]
  rw [if_pos hle]
  rfl

/-- C3: for every pair of valid dates with `startDay ≤ endDay`,
`iter_chunks_max_6_months` emits a finite sequence of inclusive chunk pairs
in increasing date order whose concatenation exactly covers the interval
with no gap and no overlap, and no chunk reaches the clamped 6-month shift
of its start. -/
theorem C3_iter_chunks_exact_cover (s e : Date) (hs : s.valid) (he : e.valid)
    (hle : toRD s ≤ toRD e) : IngestionService.ChunksSpec s e := by
  have hg := IngestionService.iter_chunks_good s e hs he
  refine ⟨fun p hp => ?_, fun x h1 h2 => ?_, fun p q hp hq x hp1 hp2 hq1 hq2 => ?_, ?_, ?_⟩
  · have := IngestionService.chunksGood_mem e _ _ hg p hp
    exact ⟨this.1, this.2.1, this.2.2.1, this.2.2.2.1, this.2.2.2.2.1, this.2.2.2.2.2⟩
  · exact IngestionService.chunksGood_cover e _ _ hg x h1 h2
  · exact IngestionService.chunksGood_unique e _ _ hg p q hp hq x hp1 hp2 hq1 hq2
  · exact IngestionService.chunksGood_chain e _ _ hg
  · exact IngestionService.iter_chunks_head s e hle

/-- Witness for C3 at the concrete range 0001-01-31 .. 0002-03-15. -/
theorem C3_iter_chunks_exact_cover_witness :
    (Date.mk 1 1 31).valid ∧ (Date.mk 2 3 15).valid ∧
    toRD ⟨1, 1, 31⟩ ≤ toRD ⟨2, 3, 15⟩ ∧
    IngestionService.ChunksSpec ⟨1, 1, 31⟩ ⟨2, 3, 15⟩ :=
  ⟨by decide, by decide, by decide,
    C3_iter_chunks_exact_cover ⟨1, 1, 31⟩ ⟨2, 3, 15⟩ (by decide) (by decide) (by decide)⟩


theorem IngestionService.fwbGo_all429 {α : Type} (fn : Nat → FetchOutcome α)
    (mr : Int) (sleep : Nat) :
    ∀ (fuel attempt : Nat), 1 ≤ attempt → (attempt : Int) + (fuel : Int) = mr →
      (∀ i : Nat, attempt ≤ i → (i : Int) ≤ mr → fn i = .httpError 429) →
      IngestionService.fetchWithBackoffGo fn mr sleep attempt (fuel + 1) =
        (.rateLimitExceeded, fuel + 1, List.replicate fuel sleep) := by
  intro fuel
  induction fuel with
  | zero =>
    intro attempt h1 h2 hall
    have h429 := hall attempt (le_refl _) (by omega)
    simp only [IngestionService.fetchWithBackoffGo, h429, if_true]
    rw [if_pos (by omega : mr ≤ (attempt : Int))]
    simp
  | succ n ih =>
    intro attempt h1 h2 hall
    have h429 := hall attempt (le_refl _) (by omega)
    rw [IngestionService.fetchWithBackoffGo.eq_def]
    dsimp only
    simp only [h429, if_true]
    rw [if_neg (by push_cast at h2 ⊢; omega : ¬ mr ≤ (attempt : Int))]
    have hrec := ih (attempt + 1) (by omega) (by push_cast at h2 ⊢; omega)
      (fun i hi hle => hall i (by omega) hle)
    rw [hrec]
    simp [List.replicate_succ]

theorem IngestionService.fwbGo_terminal {α : Type} (fn : Nat → FetchOutcome α)
    (mr : Int) (sleep : Nat) (k : Nat) (hk1 : 1 ≤ k) (hkm : (k : Int) ≤ mr)
    (hpre : ∀ i : Nat, 1 ≤ i → i < k → fn i = .httpError 429)
    (hterm : ∀ s, fn k = .httpError s → s ≠ 429) :
    ∀ (fuel attempt : Nat), 1 ≤ attempt → attempt ≤ k → k - attempt < fuel →
      IngestionService.fetchWithBackoffGo fn mr sleep attempt fuel =
        (IngestionService.terminalResult (fn k), k + 1 - attempt,
          List.replicate (k - attempt) sleep) := by
  intro fuel
  induction fuel with
  | zero => intro attempt _ _ hlt; omega
  | succ n ih =>
    intro attempt h1 h2 hlt
    by_cases heq : attempt = k
    · subst heq
      have e1 : attempt + 1 - attempt = 1 := by omega
      have e2 : attempt - attempt = 0 := by omega
      rw [e1, e2, List.replicate]
      match hfn : fn attempt with
      | .ok v =>
        simp only [IngestionService.fetchWithBackoffGo, hfn, IngestionService.terminalResult]
      | .otherError e =>
        simp only [IngestionService.fetchWithBackoffGo, hfn, IngestionService.terminalResult]
      | .httpError st =>
        have hne : st ≠ 429 := hterm st hfn
        simp only [IngestionService.fetchWithBackoffGo, hfn, IngestionService.terminalResult]
        rw [if_neg hne]
    · have hlt2 : attempt < k := by omega
      have h429 := hpre attempt h1 hlt2
      rw [IngestionService.fetchWithBackoffGo.eq_def]
      dsimp only
      simp only [h429, if_true]
      rw [if_neg (by omega : ¬ mr ≤ (attempt : Int))]
      rw [ih (attempt + 1) (by omega) (by omega) (by omega)]
      have hr : k - attempt = (k - (attempt + 1)) + 1 := by omega
      rw [hr, List.replicate_succ]
      simp only [Prod.mk.injEq]
      exact ⟨trivial, by omega, trivial⟩

theorem IngestionService.fwbGo_le {α : Type} (fn : Nat → FetchOutcome α)
    (mr : Int) (sleep : Nat) :
    ∀ (fuel attempt : Nat),
      (IngestionService.fetchWithBackoffGo fn mr sleep attempt fuel).2.1 ≤ fuel := by
  intro fuel
  induction fuel with
  | zero => intro attempt; simp [IngestionService.fetchWithBackoffGo]
  | succ n ih =>
    intro attempt
    rw [IngestionService.fetchWithBackoffGo.eq_def]
    match hfn : fn attempt with
    | .ok v => simp only [hfn]; omega
    | .otherError e => simp only [hfn]; omega
    | .httpError st =>
      simp only [hfn]
      split_ifs with h429 hge
      · dsimp only; omega
      · have := ih (attempt + 1)
        dsimp only
        omega
      · dsimp only; omega

theorem IngestionService.fwbGo_429_before {α : Type} (fn : Nat → FetchOutcome α)
    (mr : Int) (sleep : Nat) :
    ∀ (fuel attempt j : Nat), attempt ≤ j →
      j + 1 < attempt + (IngestionService.fetchWithBackoffGo fn mr sleep attempt fuel).2.1 →
      fn j = .httpError 429 := by
  intro fuel
  induction fuel with
  | zero =>
    intro attempt j h1 h2
    simp only [IngestionService.fetchWithBackoffGo] at h2
    exact absurd h1 (by omega)
  | succ n ih =>
    intro attempt j h1 h2
    rw [IngestionService.fetchWithBackoffGo.eq_def] at h2
    match hfn : fn attempt with
    | .ok v =>
      simp only [hfn] at h2
      exact absurd h1 (by omega)
    | .otherError e =>
      simp only [hfn] at h2
      exact absurd h1 (by omega)
    | .httpError st =>
      simp only [hfn] at h2
      by_cases h429 : st = 429
      · rw [if_pos h429] at h2
        by_cases hge : mr ≤ (attempt : Int)
        · rw [if_pos hge] at h2
          dsimp only at h2
          exact absurd h1 (by omega)
        · rw [if_neg hge] at h2
          dsimp only at h2
          by_cases hj : j = attempt
          · subst hj; rw [hfn, h429]
          · exact ih (attempt + 1) j (by omega) (by omega)
      · rw [if_neg h429] at h2
        dsimp only at h2
        exact absurd h1 (by omega)

/-- C5: for `max_retries ≥ 1`, `fetch_with_backoff` retries only on HTTP
429, sleeping the fixed delay between attempts, for at most `max_retries`
total attempts; all-429 runs raise the distinguished rate-limit error after
exactly `max_retries` invocations; any other exception of the k-th attempt
propagates immediately after exactly k invocations. -/
theorem C5_fetch_with_backoff_retry (α : Type) (fn : Nat → FetchOutcome α)
    (mr : Int) (sleep : Nat) (hmr : 1 ≤ mr) :
    ((∀ i : Nat, 1 ≤ i → (i : Int) ≤ mr → fn i = .httpError 429) →
      IngestionService.fetch_with_backoff fn mr sleep =
        (.rateLimitExceeded, mr.toNat, List.replicate (mr.toNat - 1) sleep)) ∧
    (∀ k : Nat, 1 ≤ k → (k : Int) ≤ mr →
      (∀ i : Nat, 1 ≤ i → i < k → fn i = .httpError 429) →
      (∀ s, fn k = .httpError s → s ≠ 429) →
      IngestionService.fetch_with_backoff fn mr sleep =
        (IngestionService.terminalResult (fn k), k, List.replicate (k - 1) sleep)) ∧
    (IngestionService.fetch_with_backoff fn mr sleep).2.1 ≤ mr.toNat ∧
    (∀ j : Nat, 1 ≤ j → j + 1 ≤ (IngestionService.fetch_with_backoff fn mr sleep).2.1 →
      fn j = .httpError 429) := by
  have htn : ((mr.toNat : Int)) = mr := Int.toNat_of_nonneg (by omega)
  refine ⟨?_, ?_, ?_, ?_⟩
  · intro hall
    unfold IngestionService.fetch_with_backoff
    obtain ⟨f, hf⟩ : ∃ f, mr.toNat = f + 1 := ⟨mr.toNat - 1, by omega⟩
    rw [hf]
    rw [IngestionService.fwbGo_all429 fn mr sleep f 1 (le_refl _) (by omega)
      (fun i hi hle => hall i hi hle)]
    simp [hf]
  · intro k hk1 hkm hpre hterm
    unfold IngestionService.fetch_with_backoff
    rw [IngestionService.fwbGo_terminal fn mr sleep k hk1 hkm hpre hterm mr.toNat 1
      (le_refl _) (by omega) (by omega)]
    simp
  · exact IngestionService.fwbGo_le fn mr sleep mr.toNat 1
  · intro j hj1 hj2
    unfold IngestionService.fetch_with_backoff at hj2
    exact IngestionService.fwbGo_429_before fn mr sleep mr.toNat 1 j hj1 (by omega)

/-- Witness for C5 with `max_retries = 2` and an action that returns 429 on
the first attempt. -/
theorem C5_fetch_with_backoff_retry_witness :
    (1 : Int) ≤ 2 ∧
    (((∀ i : Nat, 1 ≤ i → (i : Int) ≤ 2 →
        (fun a => if a = 1 then FetchOutcome.httpError 429 else FetchOutcome.ok 7) i =
          .httpError 429) →
      IngestionService.fetch_with_backoff
        (fun a => if a = 1 then FetchOutcome.httpError 429 else FetchOutcome.ok 7) 2 60 =
        (.rateLimitExceeded, (2 : Int).toNat, List.replicate ((2 : Int).toNat - 1) 60)) ∧
    (∀ k : Nat, 1 ≤ k → (k : Int) ≤ 2 →
      (∀ i : Nat, 1 ≤ i → i < k →
        (fun a => if a = 1 then FetchOutcome.httpError 429 else FetchOutcome.ok 7) i =
          .httpError 429) →
      (∀ s, (fun a => if a = 1 then FetchOutcome.httpError 429 else FetchOutcome.ok 7) k =
          .httpError s → s ≠ 429) →
      IngestionService.fetch_with_backoff
        (fun a => if a = 1 then FetchOutcome.httpError 429 else FetchOutcome.ok 7) 2 60 =
        (IngestionService.terminalResult
          ((fun a => if a = 1 then FetchOutcome.httpError 429 else FetchOutcome.ok 7) k), k,
          List.replicate (k - 1) 60)) ∧
    (IngestionService.fetch_with_backoff
      (fun a => if a = 1 then FetchOutcome.httpError 429 else FetchOutcome.ok 7) 2 60).2.1 ≤
        (2 : Int).toNat ∧
    (∀ j : Nat, 1 ≤ j →
      j + 1 ≤ (IngestionService.fetch_with_backoff
        (fun a => if a = 1 then FetchOutcome.httpError 429 else FetchOutcome.ok 7) 2 60).2.1 →
      (fun a => if a = 1 then FetchOutcome.httpError 429 else FetchOutcome.ok 7) j =
        .httpError 429)) :=
  ⟨by norm_num,
    C5_fetch_with_backoff_retry Nat
      (fun a => if a = 1 then FetchOutcome.httpError 429 else FetchOutcome.ok 7) 2 60
      (by norm_num)⟩

/-- C10: with `max_retries = 0` (or any non-positive value) the attempt
loop body never runs: `fetch_with_backoff` returns `None` with zero
invocations of the action and no sleep, raising nothing. -/
theorem C10_fetch_with_backoff_zero_retries (α : Type) (fn : Nat → FetchOutcome α)
    (sleep : Nat) (mr : Int) (hmr : mr ≤ 0) :
    IngestionService.fetch_with_backoff fn mr sleep = (.noneResult, 0, []) := by
  unfold IngestionService.fetch_with_backoff
  have h0 : mr.toNat = 0 := Int.toNat_of_nonpos hmr
  rw [h0]
  rfl

/-- Witness for C10 at `max_retries = 0` with a concrete action. -/
theorem C10_fetch_with_backoff_zero_retries_witness :
    (0 : Int) ≤ 0 ∧
    IngestionService.fetch_with_backoff (fun _ => FetchOutcome.ok (5 : Nat)) 0 60 =
      (.noneResult, 0, []) :=
  ⟨le_refl _,
    C10_fetch_with_backoff_zero_retries Nat (fun _ => FetchOutcome.ok 5) 60 0 (le_refl _)⟩


/-- C8: `parse_numeric` turns `"5,0"` into the number `5.0` (comma as
decimal separator), turns `"abc"` into an absent value without raising, and
turns a missing value into an absent value. -/
theorem C8_parse_numeric_examples :
    AemetClient.parse_numeric (some "5,0") = some (5 : ℚ) ∧
    AemetClient.parse_numeric (some "abc") = none ∧
    AemetClient.parse_numeric none = none := by
  refine ⟨?_, rfl, rfl⟩
  have h : AemetClient.parse_numeric (some "5,0") =
      some ((1 : ℚ) * (((5 : Nat) : ℚ) + ((0 : Nat) : ℚ) / (10 : ℚ) ^ (1 : Nat))) := by rfl
  rw [h]
  norm_num


theorem MeteocatClient.readingsUnder_nil (code : String) :
    MeteocatClient.readingsUnder [] code = [] := rfl

theorem MeteocatClient.readingsUnder_cons (v : MeteocatClient.MVariable)
    (vs : List MeteocatClient.MVariable) (code : String) :
    MeteocatClient.readingsUnder (v :: vs) code =
      MeteocatClient.varReadings v code ++ MeteocatClient.readingsUnder vs code := by
  unfold MeteocatClient.readingsUnder MeteocatClient.varReadings
  simp only [List.foldr_cons]
  split_ifs <;> simp

theorem MeteocatClient.maxFrom_append (acc : Option ℚ) (l1 l2 : List ℚ) :
    MeteocatClient.maxFrom acc (l1 ++ l2) =
      MeteocatClient.maxFrom (MeteocatClient.maxFrom acc l1) l2 := by
  unfold MeteocatClient.maxFrom
  rw [List.foldl_append]

theorem MeteocatClient.minFrom_append (acc : Option ℚ) (l1 l2 : List ℚ) :
    MeteocatClient.minFrom acc (l1 ++ l2) =
      MeteocatClient.minFrom (MeteocatClient.minFrom acc l1) l2 := by
  unfold MeteocatClient.minFrom
  rw [List.foldl_append]

theorem MeteocatClient.lecFold35 (lecs : List MeteocatClient.Lecture)
    (st : MeteocatClient.PState) :
    lecs.foldl (fun s lec => match lec.valor with
      | none => s
      | some v => { s with t35 := s.t35 + v, c35 := s.c35 + 1 }) st =
    { st with t35 := st.t35 + (lecs.filterMap MeteocatClient.Lecture.valor).sum,
              c35 := st.c35 + (lecs.filterMap MeteocatClient.Lecture.valor).length } := by
  induction lecs generalizing st with
  | nil => simp
  | cons l rest ih =>
    cases hv : l.valor with
    | none => simp only [List.foldl_cons, hv, List.filterMap_cons, ih]
    | some v =>
      simp only [List.foldl_cons, hv, List.filterMap_cons, ih]
      simp only [MeteocatClient.PState.mk.injEq, List.sum_cons, List.length_cons]
      refine ⟨by ring, by omega, trivial, trivial, trivial, trivial⟩

theorem MeteocatClient.lecFold32 (lecs : List MeteocatClient.Lecture)
    (st : MeteocatClient.PState) :
    lecs.foldl (fun s lec => match lec.valor with
      | none => s
      | some v => { s with t32 := s.t32 + v, c32 := s.c32 + 1 }) st =
    { st with t32 := st.t32 + (lecs.filterMap MeteocatClient.Lecture.valor).sum,
              c32 := st.c32 + (lecs.filterMap MeteocatClient.Lecture.valor).length } := by
  induction lecs generalizing st with
  | nil => simp
  | cons l rest ih =>
    cases hv : l.valor with
    | none => simp only [List.foldl_cons, hv, List.filterMap_cons, ih]
    | some v =>
      simp only [List.foldl_cons, hv, List.filterMap_cons, ih]
      simp only [MeteocatClient.PState.mk.injEq, List.sum_cons, List.length_cons]
      refine ⟨trivial, trivial, by ring, by omega, trivial, trivial⟩

theorem MeteocatClient.lecFold40 (lecs : List MeteocatClient.Lecture)
    (st : MeteocatClient.PState) :
    lecs.foldl (fun s lec => match lec.valor with
      | none => s
      | some v => { s with tmax := some (match s.tmax with | none => v | some m => max m v) }) st =
    { st with tmax := (MeteocatClient.maxFrom st.tmax
        (lecs.filterMap MeteocatClient.Lecture.valor)) } := by
  induction lecs generalizing st with
  | nil => simp [MeteocatClient.maxFrom]
  | cons l rest ih =>
    cases hv : l.valor with
    | none => simp only [List.foldl_cons, hv, List.filterMap_cons, ih]
    | some v =>
      simp only [List.foldl_cons, hv, List.filterMap_cons, ih]
      simp only [MeteocatClient.maxFrom, List.foldl_cons]

theorem MeteocatClient.lecFold42 (lecs : List MeteocatClient.Lecture)
    (st : MeteocatClient.PState) :
    lecs.foldl (fun s lec => match lec.valor with
      | none => s
      | some v => { s with tmin := some (match s.tmin with | none => v | some m => min m v) }) st =
    { st with tmin := (MeteocatClient.minFrom st.tmin
        (lecs.filterMap MeteocatClient.Lecture.valor)) } := by
  induction lecs generalizing st with
  | nil => simp [MeteocatClient.minFrom]
  | cons l rest ih =>
    cases hv : l.valor with
    | none => simp only [List.foldl_cons, hv, List.filterMap_cons, ih]
    | some v =>
      simp only [List.foldl_cons, hv, List.filterMap_cons, ih]
      simp only [MeteocatClient.minFrom, List.foldl_cons]


theorem MeteocatClient.minOfReadings_eq (l : List ℚ) :
    MeteocatClient.minOfReadings l = MeteocatClient.minFrom none l := rfl

theorem MeteocatClient.maxOfReadings_eq (l : List ℚ) :
    MeteocatClient.maxOfReadings l = MeteocatClient.maxFrom none l := rfl

theorem MeteocatClient.stepVar_eq (st : MeteocatClient.PState)
    (var : MeteocatClient.MVariable) :
    MeteocatClient.stepVar st var =
      { t35 := st.t35 + (MeteocatClient.varReadings var "35").sum,
        c35 := st.c35 + (MeteocatClient.varReadings var "35").length,
        t32 := st.t32 + (MeteocatClient.varReadings var "32").sum,
        c32 := st.c32 + (MeteocatClient.varReadings var "32").length,
        tmax := (MeteocatClient.maxFrom st.tmax (MeteocatClient.varReadings var "40")),
        tmin := (MeteocatClient.minFrom st.tmin (MeteocatClient.varReadings var "42")) } := by
  simp only [MeteocatClient.stepVar, MeteocatClient.varReadings]
  by_cases h35 : MeteocatClient.strOfCodi var.codi = "35"
  · rw [if_pos h35, if_pos h35, if_neg (by rw [h35]; decide), if_neg (by rw [h35]; decide),
      if_neg (by rw [h35]; decide)]
    rw [MeteocatClient.lecFold35]
    simp [MeteocatClient.maxFrom, MeteocatClient.minFrom]
  · rw [if_neg h35, if_neg h35]
    by_cases h32 : MeteocatClient.strOfCodi var.codi = "32"
    · rw [if_pos h32, if_pos h32, if_neg (by rw [h32]; decide), if_neg (by rw [h32]; decide)]
      rw [MeteocatClient.lecFold32]
      simp [MeteocatClient.maxFrom, MeteocatClient.minFrom]
    · rw [if_neg h32, if_neg h32]
      by_cases h40 : MeteocatClient.strOfCodi var.codi = "40"
      · rw [if_pos h40, if_pos h40, if_neg (by rw [h40]; decide)]
        rw [MeteocatClient.lecFold40]
        simp [MeteocatClient.minFrom]
      · rw [if_neg h40, if_neg h40]
        by_cases h42 : MeteocatClient.strOfCodi var.codi = "42"
        · rw [if_pos h42, if_pos h42]
          rw [MeteocatClient.lecFold42]
          simp [MeteocatClient.maxFrom]
        · rw [if_neg h42, if_neg h42]
          simp [MeteocatClient.maxFrom, MeteocatClient.minFrom]

theorem MeteocatClient.foldVars_eq (vars : List MeteocatClient.MVariable)
    (st : MeteocatClient.PState) :
    vars.foldl MeteocatClient.stepVar st =
      { t35 := st.t35 + (MeteocatClient.readingsUnder vars "35").sum,
        c35 := st.c35 + (MeteocatClient.readingsUnder vars "35").length,
        t32 := st.t32 + (MeteocatClient.readingsUnder vars "32").sum,
        c32 := st.c32 + (MeteocatClient.readingsUnder vars "32").length,
        tmax := (MeteocatClient.maxFrom st.tmax (MeteocatClient.readingsUnder vars "40")),
        tmin := (MeteocatClient.minFrom st.tmin (MeteocatClient.readingsUnder vars "42")) } := by
  induction vars generalizing st with
  | nil => simp [MeteocatClient.readingsUnder_nil, MeteocatClient.maxFrom, MeteocatClient.minFrom]
  | cons v vs ih =>
    simp only [List.foldl_cons, MeteocatClient.stepVar_eq, ih, MeteocatClient.readingsUnder_cons,
      List.sum_append, List.length_append, MeteocatClient.maxFrom_append,
      MeteocatClient.minFrom_append]
    simp only [MeteocatClient.PState.mk.injEq]
    refine ⟨by ring, by omega, by ring, by omega, trivial, trivial⟩

/-- C7: `parse_daily_payload` returns the minimum of the code-42 readings,
the maximum of the code-40 readings, the mean (not the sum) of the code-35
readings, and the mean of the code-32 readings; an absent code, an empty or
all-null reading array, an empty payload, or a one-element-list wrapper
yields an absent value for the affected fields, and the function is total
(never raises). -/
theorem C7_parse_daily_payload_aggregates (raw : MeteocatClient.MRaw) :
    MeteocatClient.parse_daily_payload raw =
      (MeteocatClient.minOfReadings (MeteocatClient.rawReadings raw "42"),
       MeteocatClient.maxOfReadings (MeteocatClient.rawReadings raw "40"),
       MeteocatClient.meanOfReadings (MeteocatClient.rawReadings raw "35"),
       MeteocatClient.meanOfReadings (MeteocatClient.rawReadings raw "32")) := by
  have hroot : ∀ root : MeteocatClient.MRoot, MeteocatClient.parseFromRoot root =
      (MeteocatClient.minOfReadings
        (MeteocatClient.readingsUnder ((MeteocatClient.rootVariables root).getD []) "42"),
       MeteocatClient.maxOfReadings
        (MeteocatClient.readingsUnder ((MeteocatClient.rootVariables root).getD []) "40"),
       MeteocatClient.meanOfReadings
        (MeteocatClient.readingsUnder ((MeteocatClient.rootVariables root).getD []) "35"),
       MeteocatClient.meanOfReadings
        (MeteocatClient.readingsUnder ((MeteocatClient.rootVariables root).getD []) "32")) := by
    intro root
    cases root with
    | nonDict =>
      simp [MeteocatClient.parseFromRoot, MeteocatClient.rootVariables,
        MeteocatClient.readingsUnder_nil, MeteocatClient.minOfReadings,
        MeteocatClient.maxOfReadings, MeteocatClient.meanOfReadings,
        MeteocatClient.minFrom, MeteocatClient.maxFrom]
    | dict vopt =>
      cases vopt with
      | none =>
        simp [MeteocatClient.parseFromRoot, MeteocatClient.rootVariables,
          MeteocatClient.readingsUnder_nil, MeteocatClient.minOfReadings,
          MeteocatClient.maxOfReadings, MeteocatClient.meanOfReadings,
          MeteocatClient.minFrom, MeteocatClient.maxFrom]
      | some vars =>
        cases vars with
        | nil =>
          simp [MeteocatClient.parseFromRoot, MeteocatClient.rootVariables,
            MeteocatClient.readingsUnder_nil, MeteocatClient.minOfReadings,
            MeteocatClient.maxOfReadings, MeteocatClient.meanOfReadings,
            MeteocatClient.minFrom, MeteocatClient.maxFrom]
        | cons v vs =>
          simp only [MeteocatClient.parseFromRoot, MeteocatClient.rootVariables,
            Option.getD_some]
          rw [MeteocatClient.foldVars_eq]
          simp only [MeteocatClient.meanOfReadings, MeteocatClient.minOfReadings_eq,
            MeteocatClient.maxOfReadings_eq, MeteocatClient.maxFrom, MeteocatClient.minFrom]
          simp [zero_add, Nat.pos_iff_ne_zero]
  cases raw with
  | falsy =>
    simp [MeteocatClient.parse_daily_payload, MeteocatClient.rawReadings,
      MeteocatClient.minOfReadings, MeteocatClient.maxOfReadings,
      MeteocatClient.meanOfReadings, MeteocatClient.minFrom, MeteocatClient.maxFrom]
  | listPayload hd tl =>
    simpa [MeteocatClient.parse_daily_payload, MeteocatClient.rawReadings] using hroot hd
  | direct r =>
    simpa [MeteocatClient.parse_daily_payload, MeteocatClient.rawReadings] using hroot r


theorem WeatherObservationRepository.lookupKey_upsert {τ ρ : Type} [DecidableEq τ]
    (db : List (Obs τ ρ)) (sid : Nat) (ts : τ)
    (tmin tmax tavg precip : Option ℚ) (raw : Option ρ) :
    WeatherObservationRepository.lookupKey
        (WeatherObservationRepository.upsert_observation db sid ts tmin tmax tavg precip raw).1
        sid ts =
      some ⟨sid, ts, tmin, tmax, tavg, precip, raw⟩ := by
  induction db with
  | nil =>
    simp [WeatherObservationRepository.upsert_observation,
      WeatherObservationRepository.lookupKey]
  | cons o rest ih =>
    by_cases h : o.station_id = sid ∧ o.ts = ts
    · cases o with
      | mk o1 o2 o3 o4 o5 o6 o7 =>
        simp only [WeatherObservationRepository.upsert_observation, if_pos h]
        obtain ⟨h1, h2⟩ := h
        dsimp only at h1 h2
        subst h1
        subst h2
        simp [WeatherObservationRepository.lookupKey]
    · simp only [WeatherObservationRepository.upsert_observation, if_neg h]
      simp only [WeatherObservationRepository.lookupKey] at ih ⊢
      rw [List.find?_cons_of_neg _ (by simpa using h)]
      exact ih

theorem WeatherObservationRepository.countKey_upsert {τ ρ : Type} [DecidableEq τ]
    (db : List (Obs τ ρ)) (sid : Nat) (ts : τ)
    (tmin tmax tavg precip : Option ℚ) (raw : Option ρ) :
    WeatherObservationRepository.countKey
        (WeatherObservationRepository.upsert_observation db sid ts tmin tmax tavg precip raw).1
        sid ts =
      max 1 (WeatherObservationRepository.countKey db sid ts) := by
  induction db with
  | nil =>
    simp [WeatherObservationRepository.upsert_observation,
      WeatherObservationRepository.countKey]
  | cons o rest ih =>
    by_cases h : o.station_id = sid ∧ o.ts = ts
    · simp only [WeatherObservationRepository.upsert_observation, if_pos h]
      simp only [WeatherObservationRepository.countKey] at ih ⊢
      rw [List.filter_cons_of_pos (by simp [h.1, h.2]), List.filter_cons_of_pos (by simpa using h)]
      simp
    · simp only [WeatherObservationRepository.upsert_observation, if_neg h]
      simp only [WeatherObservationRepository.countKey] at ih ⊢
      rw [List.filter_cons_of_neg (by simpa using h), List.filter_cons_of_neg (by simpa using h)]
      exact ih

theorem WeatherObservationRepository.length_upsert {τ ρ : Type} [DecidableEq τ]
    (db : List (Obs τ ρ)) (sid : Nat) (ts : τ)
    (tmin tmax tavg precip : Option ℚ) (raw : Option ρ) :
    (WeatherObservationRepository.upsert_observation db sid ts tmin tmax tavg precip raw).1.length =
      if WeatherObservationRepository.countKey db sid ts = 0
      then db.length + 1 else db.length := by
  induction db with
  | nil =>
    simp [WeatherObservationRepository.upsert_observation,
      WeatherObservationRepository.countKey]
  | cons o rest ih =>
    by_cases h : o.station_id = sid ∧ o.ts = ts
    · simp only [WeatherObservationRepository.upsert_observation, if_pos h]
      have hf : List.filter (fun x => decide (x.station_id = sid ∧ x.ts = ts)) (o :: rest) =
          o :: List.filter (fun x => decide (x.station_id = sid ∧ x.ts = ts)) rest :=
        List.filter_cons_of_pos (by simpa using h)
      simp only [WeatherObservationRepository.countKey, hf]
      simp
    · simp only [WeatherObservationRepository.upsert_observation, if_neg h]
      have hf : List.filter (fun x => decide (x.station_id = sid ∧ x.ts = ts)) (o :: rest) =
          List.filter (fun x => decide (x.station_id = sid ∧ x.ts = ts)) rest :=
        List.filter_cons_of_neg (by simpa using h)
      simp only [WeatherObservationRepository.countKey, hf] at ih ⊢
      simp only [List.length_cons, ih]
      split_ifs <;> omega

theorem WeatherObservationRepository.lookupKey_upsert_other {τ ρ : Type} [DecidableEq τ]
    (db : List (Obs τ ρ)) (sid : Nat) (ts : τ)
    (tmin tmax tavg precip : Option ℚ) (raw : Option ρ)
    (sid2 : Nat) (ts2 : τ) (hne : ¬ (sid = sid2 ∧ ts = ts2)) :
    WeatherObservationRepository.lookupKey
        (WeatherObservationRepository.upsert_observation db sid ts tmin tmax tavg precip raw).1
        sid2 ts2 =
      WeatherObservationRepository.lookupKey db sid2 ts2 := by
  induction db with
  | nil =>
    simp only [WeatherObservationRepository.upsert_observation,
      WeatherObservationRepository.lookupKey]
    rw [List.find?_cons_of_neg _ (by simpa using hne)]
  | cons o rest ih =>
    by_cases h : o.station_id = sid ∧ o.ts = ts
    · simp only [WeatherObservationRepository.upsert_observation, if_pos h]
      simp only [WeatherObservationRepository.lookupKey]
      rw [List.find?_cons_of_neg _ (by simp; intro e1 e2; exact absurd ⟨h.1 ▸ e1, h.2 ▸ e2⟩ hne),
        List.find?_cons_of_neg _ (by simp; intro e1 e2; exact absurd ⟨h.1 ▸ e1, h.2 ▸ e2⟩ hne)]
    · simp only [WeatherObservationRepository.upsert_observation, if_neg h]
      simp only [WeatherObservationRepository.lookupKey] at ih ⊢
      by_cases h2 : o.station_id = sid2 ∧ o.ts = ts2
      · rw [List.find?_cons_of_pos _ (by simpa using h2),
          List.find?_cons_of_pos _ (by simpa using h2)]
      · rw [List.find?_cons_of_neg _ (by simpa using h2),
          List.find?_cons_of_neg _ (by simpa using h2)]
        exact ih


theorem WeatherObservationRepository.applyUpserts_cons {τ ρ : Type} [DecidableEq τ]
    (db : List (Obs τ ρ)) (sid : Nat) (ts : τ) (v : ObsVals ρ) (vs : List (ObsVals ρ)) :
    WeatherObservationRepository.applyUpserts db sid ts (v :: vs) =
      WeatherObservationRepository.applyUpserts
        (WeatherObservationRepository.upsert_observation db sid ts
          v.tmin v.tmax v.tavg v.precip v.raw).1 sid ts vs := rfl

theorem WeatherObservationRepository.applyUpserts_countKey {τ ρ : Type} [DecidableEq τ]
    (sid : Nat) (ts : τ) :
    ∀ (vs : List (ObsVals ρ)) (db : List (Obs τ ρ)), vs ≠ [] →
      WeatherObservationRepository.countKey
          (WeatherObservationRepository.applyUpserts db sid ts vs) sid ts =
        max 1 (WeatherObservationRepository.countKey db sid ts) := by
  intro vs
  induction vs with
  | nil => intro db h; exact absurd rfl h
  | cons v vs ih =>
    intro db _
    rw [WeatherObservationRepository.applyUpserts_cons]
    by_cases hvs : vs = []
    · subst hvs
      show WeatherObservationRepository.countKey
        (WeatherObservationRepository.upsert_observation db sid ts
          v.tmin v.tmax v.tavg v.precip v.raw).1 sid ts = _
      exact WeatherObservationRepository.countKey_upsert db sid ts _ _ _ _ _
    · rw [ih _ hvs, WeatherObservationRepository.countKey_upsert]
      omega

theorem WeatherObservationRepository.applyUpserts_lookup {τ ρ : Type} [DecidableEq τ]
    (sid : Nat) (ts : τ) :
    ∀ (vs : List (ObsVals ρ)) (db : List (Obs τ ρ)) (h : vs ≠ []),
      WeatherObservationRepository.lookupKey
          (WeatherObservationRepository.applyUpserts db sid ts vs) sid ts =
        some (WeatherObservationRepository.obsOf sid ts (vs.getLast h)) := by
  intro vs
  induction vs with
  | nil => intro db h; exact absurd rfl h
  | cons v vs ih =>
    intro db _
    rw [WeatherObservationRepository.applyUpserts_cons]
    by_cases hvs : vs = []
    · subst hvs
      show WeatherObservationRepository.lookupKey
        (WeatherObservationRepository.upsert_observation db sid ts
          v.tmin v.tmax v.tavg v.precip v.raw).1 sid ts = _
      rw [WeatherObservationRepository.lookupKey_upsert]
      rfl
    · rw [ih _ hvs]
      congr 1
      rw [List.getLast_cons hvs]

theorem WeatherObservationRepository.applyUpserts_length {τ ρ : Type} [DecidableEq τ]
    (sid : Nat) (ts : τ) :
    ∀ (vs : List (ObsVals ρ)) (db : List (Obs τ ρ)), vs ≠ [] →
      (WeatherObservationRepository.applyUpserts db sid ts vs).length =
        if WeatherObservationRepository.countKey db sid ts = 0
        then db.length + 1 else db.length := by
  intro vs
  induction vs with
  | nil => intro db h; exact absurd rfl h
  | cons v vs ih =>
    intro db _
    rw [WeatherObservationRepository.applyUpserts_cons]
    by_cases hvs : vs = []
    · subst hvs
      show (WeatherObservationRepository.upsert_observation db sid ts
        v.tmin v.tmax v.tavg v.precip v.raw).1.length = _
      exact WeatherObservationRepository.length_upsert db sid ts _ _ _ _ _
    · rw [ih _ hvs, WeatherObservationRepository.countKey_upsert,
        WeatherObservationRepository.length_upsert]
      have h1 : ¬ max 1 (WeatherObservationRepository.countKey db sid ts) = 0 := by omega
      rw [if_neg h1]

/-- C2: for every identity `(station_id, ts)` satisfying the uniqueness
constraint (at most one stored row) and every nonempty sequence of upsert
calls for that identity, exactly one row with the identity exists
afterwards, and all of its measurement fields and raw payload equal the
arguments of the latest call (a later call with nulls overwrites earlier
non-null values); repeating the same call sequence leaves the stored row
count and the stored field values unchanged. -/
theorem C2_upsert_observation_full_replace {τ ρ : Type} [DecidableEq τ]
    (db : List (Obs τ ρ)) (sid : Nat) (ts : τ) (vs : List (ObsVals ρ))
    (hc : WeatherObservationRepository.countKey db sid ts ≤ 1) (hvs : vs ≠ []) :
    WeatherObservationRepository.countKey
        (WeatherObservationRepository.applyUpserts db sid ts vs) sid ts = 1 ∧
    WeatherObservationRepository.lookupKey
        (WeatherObservationRepository.applyUpserts db sid ts vs) sid ts =
      some (WeatherObservationRepository.obsOf sid ts (vs.getLast hvs)) ∧
    (WeatherObservationRepository.applyUpserts
        (WeatherObservationRepository.applyUpserts db sid ts vs) sid ts vs).length =
      (WeatherObservationRepository.applyUpserts db sid ts vs).length ∧
    WeatherObservationRepository.lookupKey
        (WeatherObservationRepository.applyUpserts
          (WeatherObservationRepository.applyUpserts db sid ts vs) sid ts vs) sid ts =
      WeatherObservationRepository.lookupKey
        (WeatherObservationRepository.applyUpserts db sid ts vs) sid ts := by
  have h1 := WeatherObservationRepository.applyUpserts_countKey sid ts vs db hvs
  have h2 := WeatherObservationRepository.applyUpserts_lookup sid ts vs db hvs
  have h2b := WeatherObservationRepository.applyUpserts_lookup sid ts vs
    (WeatherObservationRepository.applyUpserts db sid ts vs) hvs
  have h3 := WeatherObservationRepository.applyUpserts_length sid ts vs
    (WeatherObservationRepository.applyUpserts db sid ts vs) hvs
  refine ⟨by omega, h2, ?_, by rw [h2b, h2]⟩
  rw [h3, if_neg (by omega)]

/-- Witness for C2: two upserts for the identity `(7, 3)` on an empty
table, the second replacing non-null values with nulls. -/
theorem C2_upsert_observation_full_replace_witness :
    WeatherObservationRepository.countKey ([] : List (Obs Nat Nat)) 7 3 ≤ 1 ∧
    ([⟨some 1, some 2, none, some 3, some 0⟩,
      ⟨none, some 5, none, none, some 9⟩] : List (ObsVals Nat)) ≠ [] ∧
    WeatherObservationRepository.countKey
        (WeatherObservationRepository.applyUpserts ([] : List (Obs Nat Nat)) 7 3
          [⟨some 1, some 2, none, some 3, some 0⟩, ⟨none, some 5, none, none, some 9⟩]) 7 3 = 1 ∧
    WeatherObservationRepository.lookupKey
        (WeatherObservationRepository.applyUpserts ([] : List (Obs Nat Nat)) 7 3
          [⟨some 1, some 2, none, some 3, some 0⟩, ⟨none, some 5, none, none, some 9⟩]) 7 3 =
      some (WeatherObservationRepository.obsOf 7 3
        (⟨none, some 5, none, none, some 9⟩ : ObsVals Nat)) := by
  have h := C2_upsert_observation_full_replace ([] : List (Obs Nat Nat)) 7 3
    [⟨some 1, some 2, none, some 3, some 0⟩, ⟨none, some 5, none, none, some 9⟩]
    (by decide) (by decide)
  exact ⟨by decide, by decide, h.1, h.2.1⟩


theorem StationRepository.applyCreates_nil (db : StationDB) :
    StationRepository.applyCreates db [] = db := rfl

theorem StationRepository.applyCreates_cons (db : StationDB)
    (c : String × String × Option String) (cs : List (String × String × Option String)) :
    StationRepository.applyCreates db (c :: cs) =
      StationRepository.applyCreates
        (StationRepository.create_if_not_exists db c.1 c.2.1 c.2.2).1 cs := rfl

theorem StationRepository.find_append_of_find {α : Type} (p : α → Bool)
    (l l2 : List α) (x : α) (h : l.find? p = some x) : (l ++ l2).find? p = some x := by
  induction l with
  | nil => simp [List.find?] at h
  | cons a as ih =>
    rw [List.cons_append]
    by_cases hp : p a = true
    · rw [List.find?_cons_of_pos _ hp] at h ⊢
      exact h
    · rw [List.find?_cons_of_neg _ (by simpa using hp)] at h ⊢
      exact ih h

theorem StationRepository.create_existing (db : StationDB) (s sid : String) (st : Station)
    (h : StationRepository.get_by_source_id db s sid = some st) (name2 : Option String) :
    StationRepository.create_if_not_exists db s sid name2 = (db, st) := by
  unfold StationRepository.create_if_not_exists
  rw [h]

theorem StationRepository.get_after_create (db : StationDB) (s sid : String) (st : Station)
    (h : StationRepository.get_by_source_id db s sid = some st)
    (s2 sid2 : String) (n2 : Option String) :
    StationRepository.get_by_source_id
      (StationRepository.create_if_not_exists db s2 sid2 n2).1 s sid = some st := by
  unfold StationRepository.create_if_not_exists
  cases hg : StationRepository.get_by_source_id db s2 sid2 with
  | some st2 => exact h
  | none =>
    dsimp only
    unfold StationRepository.get_by_source_id at h ⊢
    exact StationRepository.find_append_of_find _ _ _ _ h

theorem StationRepository.get_after_creates (s sid : String) (st : Station) :
    ∀ (calls : List (String × String × Option String)) (db : StationDB),
      StationRepository.get_by_source_id db s sid = some st →
      StationRepository.get_by_source_id
        (StationRepository.applyCreates db calls) s sid = some st := by
  intro calls
  induction calls with
  | nil => intro db h; exact h
  | cons c cs ih =>
    intro db h
    rw [StationRepository.applyCreates_cons]
    exact ih _ (StationRepository.get_after_create db s sid st h c.1 c.2.1 c.2.2)

/-- C9: when a `(source, source_station_id)` key already has a station row,
`create_if_not_exists` returns that row and leaves the table and every
field of the row unchanged — the stored name is not refreshed even when a
different name is passed — and the internal id stays stable across any
sequence of later calls. -/
theorem C9_create_if_not_exists_first_write_wins (db : StationDB) (s sid : String)
    (st : Station) (h : StationRepository.get_by_source_id db s sid = some st) :
    (∀ name2, StationRepository.create_if_not_exists db s sid name2 = (db, st)) ∧
    (∀ calls, StationRepository.get_by_source_id
        (StationRepository.applyCreates db calls) s sid = some st) ∧
    (∀ calls name2,
      StationRepository.create_if_not_exists
        (StationRepository.applyCreates db calls) s sid name2 =
          (StationRepository.applyCreates db calls, st)) := by
  refine ⟨fun name2 => StationRepository.create_existing db s sid st h name2,
    fun calls => StationRepository.get_after_creates s sid st calls db h,
    fun calls name2 => ?_⟩
  exact StationRepository.create_existing _ s sid st
    (StationRepository.get_after_creates s sid st calls db h) name2

/-- Witness for C9: a table holding the station `(0, "aemet", "A1", "Alpha")`;
re-creating the key with a different name returns the row unchanged. -/
theorem C9_create_if_not_exists_first_write_wins_witness :
    StationRepository.get_by_source_id ⟨[⟨0, "aemet", "A1", some "Alpha"⟩], 1⟩ "aemet" "A1" =
      some ⟨0, "aemet", "A1", some "Alpha"⟩ ∧
    (∀ name2, StationRepository.create_if_not_exists
        ⟨[⟨0, "aemet", "A1", some "Alpha"⟩], 1⟩ "aemet" "A1" name2 =
      (⟨[⟨0, "aemet", "A1", some "Alpha"⟩], 1⟩, ⟨0, "aemet", "A1", some "Alpha"⟩)) ∧
    (∀ calls, StationRepository.get_by_source_id
        (StationRepository.applyCreates ⟨[⟨0, "aemet", "A1", some "Alpha"⟩], 1⟩ calls)
        "aemet" "A1" = some ⟨0, "aemet", "A1", some "Alpha"⟩) := by
  have h := C9_create_if_not_exists_first_write_wins
    ⟨[⟨0, "aemet", "A1", some "Alpha"⟩], 1⟩ "aemet" "A1" ⟨0, "aemet", "A1", some "Alpha"⟩
    (by decide)
  exact ⟨by decide, h.1, h.2.1⟩


theorem WeatherObservationRepository.get_latest_none {ρ : Type} (sid : Nat) :
    ∀ (db : List (Obs Date ρ)), (∀ o ∈ db, o.station_id ≠ sid) →
      WeatherObservationRepository.get_latest_ts_by_station db sid = none := by
  have hgo : ∀ (db : List (Obs Date ρ)), (∀ o ∈ db, o.station_id ≠ sid) →
      db.foldl (fun acc o =>
        if o.station_id = sid then
          some (match acc with
                | none => o.ts
                | some m => if toRD m < toRD o.ts then o.ts else m)
        else acc) none = none := by
    intro db
    induction db with
    | nil => intro _; rfl
    | cons o rest ih =>
      intro h
      rw [List.foldl_cons, if_neg (h o (List.mem_cons_self _ _))]
      exact ih (fun o2 ho2 => h o2 (List.mem_cons_of_mem _ ho2))
  intro db h
  exact hgo db h

theorem WeatherObservationRepository.latestGo_spec {ρ : Type} (sid : Nat) :
    ∀ (db : List (Obs Date ρ)) (acc : Option Date) (d : Date),
      db.foldl (fun acc o =>
        if o.station_id = sid then
          some (match acc with
                | none => o.ts
                | some m => if toRD m < toRD o.ts then o.ts else m)
        else acc) acc = some d →
      ((acc = some d ∨ ∃ o, o ∈ db ∧ o.station_id = sid ∧ o.ts = d) ∧
       (∀ m, acc = some m → toRD m ≤ toRD d) ∧
       (∀ o, o ∈ db → o.station_id = sid → toRD o.ts ≤ toRD d)) := by
  intro db
  induction db with
  | nil =>
    intro acc d h
    rw [List.foldl_nil] at h
    refine ⟨Or.inl h, fun m hm => ?_, fun o ho => absurd ho (List.not_mem_nil o)⟩
    rw [hm] at h
    cases h
    exact le_refl _
  | cons o rest ih =>
    intro acc d h
    rw [List.foldl_cons] at h
    by_cases hmatch : o.station_id = sid
    · rw [if_pos hmatch] at h
      cases acc with
      | none =>
        dsimp only at h
        obtain ⟨hd1, hd2, hd3⟩ := ih (some o.ts) d h
        have hvd : toRD o.ts ≤ toRD d := hd2 o.ts rfl
        refine ⟨?_, fun m hm => Option.noConfusion hm, fun o2 ho2 hs2 => ?_⟩
        · rcases hd1 with hd1 | ⟨o2, ho2, hs2, ht2⟩
          · have hts : o.ts = d := Option.some.inj hd1
            exact Or.inr ⟨o, List.mem_cons_self _ _, hmatch, hts⟩
          · exact Or.inr ⟨o2, List.mem_cons_of_mem _ ho2, hs2, ht2⟩
        · rcases List.mem_cons.mp ho2 with he | hm2
          · subst he; exact hvd
          · exact hd3 o2 hm2 hs2
      | some m =>
        dsimp only at h
        by_cases hlt : toRD m < toRD o.ts
        · rw [if_pos hlt] at h
          obtain ⟨hd1, hd2, hd3⟩ := ih (some o.ts) d h
          have hvd : toRD o.ts ≤ toRD d := hd2 o.ts rfl
          refine ⟨?_, fun m2 hm2 => ?_, fun o2 ho2 hs2 => ?_⟩
          · rcases hd1 with hd1 | ⟨o2, ho2, hs2, ht2⟩
            · have hts : o.ts = d := Option.some.inj hd1
              exact Or.inr ⟨o, List.mem_cons_self _ _, hmatch, hts⟩
            · exact Or.inr ⟨o2, List.mem_cons_of_mem _ ho2, hs2, ht2⟩
          · have hm2e : m = m2 := Option.some.inj hm2
            subst hm2e
            omega
          · rcases List.mem_cons.mp ho2 with he | hm2
            · subst he; exact hvd
            · exact hd3 o2 hm2 hs2
        · rw [if_neg hlt] at h
          obtain ⟨hd1, hd2, hd3⟩ := ih (some m) d h
          have hvd : toRD m ≤ toRD d := hd2 m rfl
          refine ⟨?_, fun m2 hm2 => ?_, fun o2 ho2 hs2 => ?_⟩
          · rcases hd1 with hd1 | ⟨o2, ho2, hs2, ht2⟩
            · exact Or.inl hd1
            · exact Or.inr ⟨o2, List.mem_cons_of_mem _ ho2, hs2, ht2⟩
          · have hm2e : m = m2 := Option.some.inj hm2
            subst hm2e
            exact hvd
          · rcases List.mem_cons.mp ho2 with he | hm2
            · subst he; omega
            · exact hd3 o2 hm2 hs2
    · rw [if_neg hmatch] at h
      obtain ⟨hd1, hd2, hd3⟩ := ih acc d h
      refine ⟨?_, hd2, fun o2 ho2 hs2 => ?_⟩
      · rcases hd1 with hd1 | ⟨o2, ho2, hs2, ht2⟩
        · exact Or.inl hd1
        · exact Or.inr ⟨o2, List.mem_cons_of_mem _ ho2, hs2, ht2⟩
      · rcases List.mem_cons.mp ho2 with he | hm2
        · subst he; exact absurd hs2 hmatch
        · exact hd3 o2 hm2 hs2

theorem WeatherObservationRepository.get_latest_some {ρ : Type}
    (db : List (Obs Date ρ)) (sid : Nat) (d : Date)
    (h : WeatherObservationRepository.get_latest_ts_by_station db sid = some d) :
    (∃ o, o ∈ db ∧ o.station_id = sid ∧ o.ts = d) ∧
    (∀ o, o ∈ db → o.station_id = sid → toRD o.ts ≤ toRD d) := by
  have := WeatherObservationRepository.latestGo_spec sid db none d h
  obtain ⟨h1, _, h3⟩ := this
  rcases h1 with h1 | h1
  · cases h1
  · exact ⟨h1, h3⟩


/-- C4: the planned backfill start is the fixed epoch `2024-01-01` for a
station with no stored observations and the latest stored day plus one
otherwise; the planned end is yesterday relative to the current UTC date,
independently of the provider; and a station whose start exceeds its end is
skipped: no fetch is issued, the observation table and the observation
counters are untouched (only the station upsert and its counter happen). -/
theorem C4_backfill_planner {ρ : Type} (db : List (Obs Date ρ)) (sid : Nat) :
    ((∀ o ∈ db, o.station_id ≠ sid) →
      IngestionService.compute_start_date db sid = IngestionService.BACKFILL_START ∧
      IngestionService.BACKFILL_START = ⟨2024, 1, 1⟩) ∧
    (∀ d, WeatherObservationRepository.get_latest_ts_by_station db sid = some d →
      (∃ o, o ∈ db ∧ o.station_id = sid ∧ o.ts = d) ∧
      (∀ o, o ∈ db → o.station_id = sid → toRD o.ts ≤ toRD d) ∧
      IngestionService.compute_start_date db sid = d.succ) ∧
    (∀ (p : String) (today : Date),
      IngestionService.available_end_date p today = today.pred) ∧
    (∀ (env : AemetEnv) (today : Date) (sdb : StationDB) (odb : ObsDB)
      (meta : AemetMeta) (sid2 : String), meta.pickId = some sid2 →
      toRD (IngestionService.available_end_date "aemet" today) <
        toRD (IngestionService.compute_start_date odb
          (StationRepository.create_if_not_exists sdb "aemet" sid2 meta.pickName).2.id) →
      IngestionService.processAemetStation env today sdb odb meta =
        ⟨(StationRepository.create_if_not_exists sdb "aemet" sid2 meta.pickName).1,
          odb, 1, 0, 0, 0⟩) ∧
    (∀ (env : MeteocatEnv) (today : Date) (sdb : StationDB) (odb : ObsDB)
      (meta : MeteocatMeta) (code : String), meta.pickId = some code →
      toRD (IngestionService.available_end_date "meteocat" today) <
        toRD (IngestionService.compute_start_date odb
          (StationRepository.create_if_not_exists sdb "meteocat" code meta.pickName).2.id) →
      IngestionService.processMeteocatStation env today sdb odb meta =
        ⟨(StationRepository.create_if_not_exists sdb "meteocat" code meta.pickName).1,
          odb, 1, 0, 0, 0⟩) := by
  refine ⟨fun hnone => ?_, fun d hd => ?_, fun p today => rfl, ?_, ?_⟩
  · constructor
    · unfold IngestionService.compute_start_date
      rw [WeatherObservationRepository.get_latest_none sid db hnone]
    · rfl
  · obtain ⟨h1, h2⟩ := WeatherObservationRepository.get_latest_some db sid d hd
    refine ⟨h1, h2, ?_⟩
    unfold IngestionService.compute_start_date
    rw [hd]
  · intro env today sdb odb meta sid2 hpick hlt
    unfold IngestionService.processAemetStation
    rw [hpick]
    dsimp only
    rw [if_pos hlt]
  · intro env today sdb odb meta code hpick hlt
    unfold IngestionService.processMeteocatStation
    rw [hpick]
    dsimp only
    rw [if_pos hlt]

/-- Witness for C4: an observation table holding one row for station 0 on
day 0002-03-04; station 7 has no rows; a concrete station whose planned
start (0002-03-05) exceeds the planned end (0002-03-03) is skipped. -/
theorem C4_backfill_planner_witness :
    (∀ o ∈ ([⟨0, ⟨2, 3, 4⟩, none, none, none, none, none⟩] : ObsDB), o.station_id ≠ 7) ∧
    (IngestionService.compute_start_date
        ([⟨0, ⟨2, 3, 4⟩, none, none, none, none, none⟩] : ObsDB) 7 =
      IngestionService.BACKFILL_START ∧
      IngestionService.BACKFILL_START = ⟨2024, 1, 1⟩) ∧
    WeatherObservationRepository.get_latest_ts_by_station
        ([⟨0, ⟨2, 3, 4⟩, none, none, none, none, none⟩] : ObsDB) 0 = some ⟨2, 3, 4⟩ ∧
    IngestionService.compute_start_date
        ([⟨0, ⟨2, 3, 4⟩, none, none, none, none, none⟩] : ObsDB) 0 = Date.succ ⟨2, 3, 4⟩ ∧
    IngestionService.available_end_date "aemet" ⟨2, 3, 4⟩ = Date.pred ⟨2, 3, 4⟩ ∧
    (⟨some "A1", none, none, some "Alpha", none⟩ : AemetMeta).pickId = some "A1" ∧
    toRD (IngestionService.available_end_date "aemet" ⟨2, 3, 4⟩) <
      toRD (IngestionService.compute_start_date
        ([⟨0, ⟨2, 3, 4⟩, none, none, none, none, none⟩] : ObsDB)
        (StationRepository.create_if_not_exists ⟨[], 0⟩ "aemet" "A1"
          (⟨some "A1", none, none, some "Alpha", none⟩ : AemetMeta).pickName).2.id) ∧
    (∀ (env : AemetEnv),
      IngestionService.processAemetStation env ⟨2, 3, 4⟩ ⟨[], 0⟩
        ([⟨0, ⟨2, 3, 4⟩, none, none, none, none, none⟩] : ObsDB)
        ⟨some "A1", none, none, some "Alpha", none⟩ =
      ⟨(StationRepository.create_if_not_exists ⟨[], 0⟩ "aemet" "A1"
          (⟨some "A1", none, none, some "Alpha", none⟩ : AemetMeta).pickName).1,
        [⟨0, ⟨2, 3, 4⟩, none, none, none, none, none⟩], 1, 0, 0, 0⟩) := by
  have h7 := C4_backfill_planner ([⟨0, ⟨2, 3, 4⟩, none, none, none, none, none⟩] : ObsDB) 7
  have h0 := C4_backfill_planner ([⟨0, ⟨2, 3, 4⟩, none, none, none, none, none⟩] : ObsDB) 0
  refine ⟨by decide, h7.1 (by decide), by decide, ?_, h7.2.2.1 "aemet" ⟨2, 3, 4⟩, by decide,
    by decide, fun env => ?_⟩
  · exact (h0.2.1 ⟨2, 3, 4⟩ (by decide)).2.2
  · exact h7.2.2.2.1 env ⟨2, 3, 4⟩ ⟨[], 0⟩ _ ⟨some "A1", none, none, some "Alpha", none⟩
      "A1" (by decide) (by decide)


theorem IngestionService.processMeteocatDays_error
    (fetch : Date → Except String MeteocatClient.MRaw) (stId : Nat)
    (d : Date) (days2 : List Date) (odb : ObsDB) (msg : String)
    (h : fetch d = .error msg) :
    IngestionService.processMeteocatDays fetch stId (d :: days2) odb = ⟨odb, 0, 1, 1⟩ := by
  simp only [IngestionService.processMeteocatDays, h]

theorem IngestionService.processMeteocatDays_ok_counts
    (fetch : Date → Except String MeteocatClient.MRaw) (stId : Nat) :
    ∀ (days : List Date) (odb : ObsDB), (∀ d ∈ days, ∃ r, fetch d = Except.ok r) →
      (IngestionService.processMeteocatDays fetch stId days odb).failCount = 0 ∧
      (IngestionService.processMeteocatDays fetch stId days odb).obs = days.length ∧
      (IngestionService.processMeteocatDays fetch stId days odb).fetchCalls = days.length := by
  intro days
  induction days with
  | nil => intro odb _; exact ⟨rfl, rfl, rfl⟩
  | cons d rest ih =>
    intro odb hok
    obtain ⟨r, hr⟩ := hok d (List.mem_cons_self _ _)
    simp only [IngestionService.processMeteocatDays, hr]
    obtain ⟨h1, h2, h3⟩ := ih
      ((WeatherObservationRepository.upsert_observation odb stId
        (IngestionService.ts_for_day d) (MeteocatClient.parse_daily_payload r).1
        (MeteocatClient.parse_daily_payload r).2.1 (MeteocatClient.parse_daily_payload r).2.2.2
        (MeteocatClient.parse_daily_payload r).2.2.1 (some (RawData.meteocat r))).1)
      (fun x hx => hok x (List.mem_cons_of_mem _ hx))
    simp only [List.length_cons]
    omega

theorem IngestionService.processMeteocatDays_fail_mid
    (fetch : Date → Except String MeteocatClient.MRaw) (stId : Nat) :
    ∀ (days1 : List Date) (d : Date) (days2 : List Date) (odb : ObsDB) (msg : String),
      (∀ x ∈ days1, ∃ r, fetch x = Except.ok r) → fetch d = .error msg →
      IngestionService.processMeteocatDays fetch stId (days1 ++ d :: days2) odb =
        ⟨(IngestionService.processMeteocatDays fetch stId days1 odb).odb,
         (IngestionService.processMeteocatDays fetch stId days1 odb).obs,
         (IngestionService.processMeteocatDays fetch stId days1 odb).failCount + 1,
         (IngestionService.processMeteocatDays fetch stId days1 odb).fetchCalls + 1⟩ := by
  intro days1
  induction days1 with
  | nil =>
    intro d days2 odb msg _ herr
    rw [List.nil_append,
      IngestionService.processMeteocatDays_error fetch stId d days2 odb msg herr]
    rfl
  | cons x rest ih =>
    intro d days2 odb msg hok herr
    obtain ⟨r, hr⟩ := hok x (List.mem_cons_self _ _)
    rw [List.cons_append]
    simp only [IngestionService.processMeteocatDays, hr]
    rw [ih d days2 _ msg (fun y hy => hok y (List.mem_cons_of_mem _ hy)) herr]

theorem IngestionService.processAemetChunks_error
    (fetch : Date × Date → Except String (List AemetRow)) (stId : Nat)
    (c : Date × Date) (rest : List (Date × Date)) (odb : ObsDB) (msg : String)
    (h : fetch c = .error msg) :
    IngestionService.processAemetChunks fetch stId (c :: rest) odb = ⟨odb, 0, 1, 1⟩ := by
  simp only [IngestionService.processAemetChunks, h]

theorem IngestionService.processAemetChunks_ok_counts
    (fetch : Date × Date → Except String (List AemetRow)) (stId : Nat) :
    ∀ (chunks : List (Date × Date)) (odb : ObsDB),
      (∀ c ∈ chunks, ∃ r, fetch c = Except.ok r) →
      (IngestionService.processAemetChunks fetch stId chunks odb).failCount = 0 ∧
      (IngestionService.processAemetChunks fetch stId chunks odb).fetchCalls = chunks.length := by
  intro chunks
  induction chunks with
  | nil => intro odb _; exact ⟨rfl, rfl⟩
  | cons c rest ih =>
    intro odb hok
    obtain ⟨r, hr⟩ := hok c (List.mem_cons_self _ _)
    simp only [IngestionService.processAemetChunks, hr]
    obtain ⟨h1, h2⟩ := ih ((IngestionService.upsertAemetRows stId r odb).1)
      (fun x hx => hok x (List.mem_cons_of_mem _ hx))
    simp only [List.length_cons]
    omega

theorem IngestionService.processAemetChunks_fail_mid
    (fetch : Date × Date → Except String (List AemetRow)) (stId : Nat) :
    ∀ (chunks1 : List (Date × Date)) (c : Date × Date) (chunks2 : List (Date × Date))
      (odb : ObsDB) (msg : String),
      (∀ x ∈ chunks1, ∃ r, fetch x = Except.ok r) → fetch c = .error msg →
      IngestionService.processAemetChunks fetch stId (chunks1 ++ c :: chunks2) odb =
        ⟨(IngestionService.processAemetChunks fetch stId chunks1 odb).odb,
         (IngestionService.processAemetChunks fetch stId chunks1 odb).obs,
         (IngestionService.processAemetChunks fetch stId chunks1 odb).failCount + 1,
         (IngestionService.processAemetChunks fetch stId chunks1 odb).fetchCalls + 1⟩ := by
  intro chunks1
  induction chunks1 with
  | nil =>
    intro c chunks2 odb msg _ herr
    rw [List.nil_append,
      IngestionService.processAemetChunks_error fetch stId c chunks2 odb msg herr]
    rfl
  | cons x rest ih =>
    intro c chunks2 odb msg hok herr
    obtain ⟨r, hr⟩ := hok x (List.mem_cons_self _ _)
    rw [List.cons_append]
    simp only [IngestionService.processAemetChunks, hr]
    rw [ih c chunks2 _ msg (fun y hy => hok y (List.mem_cons_of_mem _ hy)) herr]


theorem WeatherObservationRepository.lookup_ne_none_upsert {τ ρ : Type} [DecidableEq τ]
    (db : List (Obs τ ρ)) (sid : Nat) (ts : τ)
    (tmin tmax tavg precip : Option ℚ) (raw : Option ρ) (k : Nat) (kts : τ)
    (h : WeatherObservationRepository.lookupKey db k kts ≠ none) :
    WeatherObservationRepository.lookupKey
      (WeatherObservationRepository.upsert_observation db sid ts tmin tmax tavg precip raw).1
      k kts ≠ none := by
  by_cases hk : sid = k ∧ ts = kts
  · obtain ⟨rfl, rfl⟩ := hk
    rw [WeatherObservationRepository.lookupKey_upsert]
    exact Option.some_ne_none _
  · rw [WeatherObservationRepository.lookupKey_upsert_other db sid ts tmin tmax tavg precip raw
      k kts hk]
    exact h

theorem IngestionService.lookup_ne_none_upsertAemetRows (stId : Nat) (k : Nat) (kts : Date) :
    ∀ (rows : List AemetRow) (p : ObsDB × Nat),
      WeatherObservationRepository.lookupKey p.1 k kts ≠ none →
      WeatherObservationRepository.lookupKey
        (rows.foldl (fun acc item =>
          match item.fecha with
          | none => acc
          | some day =>
            let ts := IngestionService.ts_for_day day
            let tmin := AemetClient.parse_numeric item.tmin
            let tmax := AemetClient.parse_numeric item.tmax
            let precip := AemetClient.parse_numeric item.prec
            let tmed := AemetClient.parse_numeric item.tmed
            let r := WeatherObservationRepository.upsert_observation acc.1 stId ts
              tmin tmax tmed precip (some (.aemet item))
            (r.1, acc.2 + 1)) p).1 k kts ≠ none := by
  intro rows
  induction rows with
  | nil => intro p h; exact h
  | cons item rest ih =>
    intro p h
    rw [List.foldl_cons]
    cases hf : item.fecha with
    | none =>
      apply ih
      simpa [hf] using h
    | some day =>
      apply ih
      simp only [hf]
      exact WeatherObservationRepository.lookup_ne_none_upsert _ _ _ _ _ _ _ _ _ _ h

theorem IngestionService.lookup_ne_none_aemetChunks
    (fetch : Date × Date → Except String (List AemetRow)) (stId : Nat) (k : Nat) (kts : Date) :
    ∀ (chunks : List (Date × Date)) (odb : ObsDB),
      WeatherObservationRepository.lookupKey odb k kts ≠ none →
      WeatherObservationRepository.lookupKey
        (IngestionService.processAemetChunks fetch stId chunks odb).odb k kts ≠ none := by
  intro chunks
  induction chunks with
  | nil => intro odb h; exact h
  | cons c rest ih =>
    intro odb h
    cases hf : fetch c with
    | error msg => simpa [IngestionService.processAemetChunks, hf] using h
    | ok rows =>
      simp only [IngestionService.processAemetChunks, hf]
      apply ih
      exact IngestionService.lookup_ne_none_upsertAemetRows stId k kts rows (odb, 0) h

theorem IngestionService.lookup_ne_none_aemetStation (env : AemetEnv) (today : Date)
    (sdb : StationDB) (odb : ObsDB) (meta : AemetMeta) (k : Nat) (kts : Date)
    (h : WeatherObservationRepository.lookupKey odb k kts ≠ none) :
    WeatherObservationRepository.lookupKey
      (IngestionService.processAemetStation env today sdb odb meta).odb k kts ≠ none := by
  unfold IngestionService.processAemetStation
  cases meta.pickId with
  | none => exact h
  | some sid =>
    dsimp only
    split_ifs with hc
    · exact h
    · exact IngestionService.lookup_ne_none_aemetChunks _ _ k kts _ odb h

theorem IngestionService.lookup_ne_none_aemetStations (env : AemetEnv) (today : Date)
    (k : Nat) (kts : Date) :
    ∀ (metas : List AemetMeta) (sdb : StationDB) (odb : ObsDB),
      WeatherObservationRepository.lookupKey odb k kts ≠ none →
      WeatherObservationRepository.lookupKey
        (IngestionService.processAemetStations env today metas sdb odb).odb k kts ≠ none := by
  intro metas
  induction metas with
  | nil => intro sdb odb h; exact h
  | cons m rest ih =>
    intro sdb odb h
    simp only [IngestionService.processAemetStations]
    exact ih _ _ (IngestionService.lookup_ne_none_aemetStation env today sdb odb m k kts h)

theorem IngestionService.lookup_ne_none_meteocatDays
    (fetch : Date → Except String MeteocatClient.MRaw) (stId : Nat) (k : Nat) (kts : Date) :
    ∀ (days : List Date) (odb : ObsDB),
      WeatherObservationRepository.lookupKey odb k kts ≠ none →
      WeatherObservationRepository.lookupKey
        (IngestionService.processMeteocatDays fetch stId days odb).odb k kts ≠ none := by
  intro days
  induction days with
  | nil => intro odb h; exact h
  | cons d rest ih =>
    intro odb h
    cases hf : fetch d with
    | error msg => simpa [IngestionService.processMeteocatDays, hf] using h
    | ok raw =>
      simp only [IngestionService.processMeteocatDays, hf]
      apply ih
      exact WeatherObservationRepository.lookup_ne_none_upsert _ _ _ _ _ _ _ _ _ _ h

theorem IngestionService.lookup_ne_none_meteocatStation (env : MeteocatEnv) (today : Date)
    (sdb : StationDB) (odb : ObsDB) (meta : MeteocatMeta) (k : Nat) (kts : Date)
    (h : WeatherObservationRepository.lookupKey odb k kts ≠ none) :
    WeatherObservationRepository.lookupKey
      (IngestionService.processMeteocatStation env today sdb odb meta).odb k kts ≠ none := by
  unfold IngestionService.processMeteocatStation
  cases meta.pickId with
  | none => exact h
  | some code =>
    dsimp only
    split_ifs with hc
    · exact h
    · exact IngestionService.lookup_ne_none_meteocatDays _ _ k kts _ odb h

theorem IngestionService.lookup_ne_none_meteocatStations (env : MeteocatEnv) (today : Date)
    (k : Nat) (kts : Date) :
    ∀ (metas : List MeteocatMeta) (sdb : StationDB) (odb : ObsDB),
      WeatherObservationRepository.lookupKey odb k kts ≠ none →
      WeatherObservationRepository.lookupKey
        (IngestionService.processMeteocatStations env today metas sdb odb).odb k kts ≠ none := by
  intro metas
  induction metas with
  | nil => intro sdb odb h; exact h
  | cons m rest ih =>
    intro sdb odb h
    simp only [IngestionService.processMeteocatStations]
    exact ih _ _ (IngestionService.lookup_ne_none_meteocatStation env today sdb odb m k kts h)

theorem IngestionService.lookup_ne_none_sync (env : SyncEnv) (sdb : StationDB) (odb : ObsDB)
    (k : Nat) (kts : Date)
    (h : WeatherObservationRepository.lookupKey odb k kts ≠ none) :
    WeatherObservationRepository.lookupKey
      (IngestionService.sync env sdb odb).2.1 k kts ≠ none := by
  unfold IngestionService.sync IngestionService.aemetSection IngestionService.meteocatSection
  cases env.aemet.listResult with
  | error msg =>
    cases env.meteocat.listResult with
    | error msg2 => exact h
    | ok metas =>
      exact IngestionService.lookup_ne_none_meteocatStations env.meteocat env.today k kts
        metas _ _ h
  | ok metas =>
    have h1 := IngestionService.lookup_ne_none_aemetStations env.aemet env.today k kts
      metas sdb odb h
    cases env.meteocat.listResult with
    | error msg2 => exact h1
    | ok metas2 =>
      exact IngestionService.lookup_ne_none_meteocatStations env.meteocat env.today k kts
        metas2 _ _ h1


theorem IngestionService.sync_meteocat_list_fail (env : SyncEnv) (sdb : StationDB)
    (odb : ObsDB) (msg : String) (h : env.meteocat.listResult = .error msg) :
    (IngestionService.sync env sdb odb).2.2.failures_meteocat = some msg ∧
    (IngestionService.sync env sdb odb).2.2.stations_meteocat = 0 ∧
    (IngestionService.sync env sdb odb).2.2.observations_meteocat = 0 ∧
    (IngestionService.sync env sdb odb).2.2.failures_meteocat_station_errors = 0 := by
  simp only [IngestionService.sync, IngestionService.meteocatSection, h]
  exact ⟨trivial, trivial, trivial, trivial⟩

theorem IngestionService.sync_aemet_list_fail (env : SyncEnv) (sdb : StationDB)
    (odb : ObsDB) (msg : String) (h : env.aemet.listResult = .error msg) :
    (IngestionService.sync env sdb odb).2.2.failures_aemet = some msg ∧
    (IngestionService.sync env sdb odb).2.2.stations_aemet = 0 ∧
    (IngestionService.sync env sdb odb).2.2.observations_aemet = 0 ∧
    (IngestionService.sync env sdb odb).2.2.failures_aemet_station_errors = 0 ∧
    (IngestionService.sync env sdb odb).2.2.stations_meteocat =
      (IngestionService.meteocatSection env.meteocat env.today sdb odb).1.stations ∧
    (IngestionService.sync env sdb odb).2.2.observations_meteocat =
      (IngestionService.meteocatSection env.meteocat env.today sdb odb).1.obs ∧
    (IngestionService.sync env sdb odb).2.2.failures_meteocat =
      (IngestionService.meteocatSection env.meteocat env.today sdb odb).2 ∧
    (IngestionService.sync env sdb odb).2.1 =
      (IngestionService.meteocatSection env.meteocat env.today sdb odb).1.odb := by
  simp only [IngestionService.sync, IngestionService.aemetSection, h]
  exact ⟨trivial, trivial, trivial, trivial, trivial, trivial, trivial, trivial⟩

theorem IngestionService.sync_aemet_independent (env env2 : SyncEnv) (sdb : StationDB)
    (odb : ObsDB) (ha : env.aemet = env2.aemet) (ht : env.today = env2.today) :
    (IngestionService.sync env sdb odb).2.2.stations_aemet =
      (IngestionService.sync env2 sdb odb).2.2.stations_aemet ∧
    (IngestionService.sync env sdb odb).2.2.observations_aemet =
      (IngestionService.sync env2 sdb odb).2.2.observations_aemet ∧
    (IngestionService.sync env sdb odb).2.2.failures_aemet =
      (IngestionService.sync env2 sdb odb).2.2.failures_aemet ∧
    (IngestionService.sync env sdb odb).2.2.failures_aemet_station_errors =
      (IngestionService.sync env2 sdb odb).2.2.failures_aemet_station_errors := by
  simp only [IngestionService.sync, ha, ht]
  exact ⟨trivial, trivial, trivial, trivial⟩

theorem IngestionService.meteocat_stations_cons (env : MeteocatEnv) (today : Date)
    (m : MeteocatMeta) (rest : List MeteocatMeta) (sdb : StationDB) (odb : ObsDB) :
    IngestionService.processMeteocatStations env today (m :: rest) sdb odb =
      ⟨(IngestionService.processMeteocatStations env today rest
          (IngestionService.processMeteocatStation env today sdb odb m).sdb
          (IngestionService.processMeteocatStation env today sdb odb m).odb).sdb,
        (IngestionService.processMeteocatStations env today rest
          (IngestionService.processMeteocatStation env today sdb odb m).sdb
          (IngestionService.processMeteocatStation env today sdb odb m).odb).odb,
        (IngestionService.processMeteocatStation env today sdb odb m).stations +
          (IngestionService.processMeteocatStations env today rest
            (IngestionService.processMeteocatStation env today sdb odb m).sdb
            (IngestionService.processMeteocatStation env today sdb odb m).odb).stations,
        (IngestionService.processMeteocatStation env today sdb odb m).obs +
          (IngestionService.processMeteocatStations env today rest
            (IngestionService.processMeteocatStation env today sdb odb m).sdb
            (IngestionService.processMeteocatStation env today sdb odb m).odb).obs,
        (IngestionService.processMeteocatStation env today sdb odb m).failCount +
          (IngestionService.processMeteocatStations env today rest
            (IngestionService.processMeteocatStation env today sdb odb m).sdb
            (IngestionService.processMeteocatStation env today sdb odb m).odb).failCount,
        (IngestionService.processMeteocatStation env today sdb odb m).fetchCalls +
          (IngestionService.processMeteocatStations env today rest
            (IngestionService.processMeteocatStation env today sdb odb m).sdb
            (IngestionService.processMeteocatStation env today sdb odb m).odb).fetchCalls⟩ := rfl


/-- C6: a failure while fetching or storing one unit (one AEMET chunk or
one Meteocat day) increments that provider's station-error counter by
exactly one and aborts only the remaining units of the current station,
while already-upserted observations (of the current station and of earlier
stations) remain committed, counted, and present at the end of the run;
the station loop continues with the next station; and a station-list-level
failure is recorded as a descriptive string for that provider, leaving the
other provider's counters and failure record unaffected. -/
theorem C6_sync_failure_isolation :
    (∀ (fetch : Date → Except String MeteocatClient.MRaw) (stId : Nat) (d : Date)
      (days2 : List Date) (odb : ObsDB) (msg : String), fetch d = .error msg →
      IngestionService.processMeteocatDays fetch stId (d :: days2) odb = ⟨odb, 0, 1, 1⟩) ∧
    (∀ (fetch : Date → Except String MeteocatClient.MRaw) (stId : Nat) (days1 : List Date)
      (d : Date) (days2 : List Date) (odb : ObsDB) (msg : String),
      (∀ x ∈ days1, ∃ r, fetch x = Except.ok r) → fetch d = .error msg →
      IngestionService.processMeteocatDays fetch stId (days1 ++ d :: days2) odb =
        ⟨(IngestionService.processMeteocatDays fetch stId days1 odb).odb,
         (IngestionService.processMeteocatDays fetch stId days1 odb).obs,
         (IngestionService.processMeteocatDays fetch stId days1 odb).failCount + 1,
         (IngestionService.processMeteocatDays fetch stId days1 odb).fetchCalls + 1⟩) ∧
    (∀ (fetch : Date → Except String MeteocatClient.MRaw) (stId : Nat) (days : List Date)
      (odb : ObsDB), (∀ d ∈ days, ∃ r, fetch d = Except.ok r) →
      (IngestionService.processMeteocatDays fetch stId days odb).failCount = 0 ∧
      (IngestionService.processMeteocatDays fetch stId days odb).obs = days.length ∧
      (IngestionService.processMeteocatDays fetch stId days odb).fetchCalls = days.length) ∧
    (∀ (fetch : Date × Date → Except String (List AemetRow)) (stId : Nat) (c : Date × Date)
      (rest : List (Date × Date)) (odb : ObsDB) (msg : String), fetch c = .error msg →
      IngestionService.processAemetChunks fetch stId (c :: rest) odb = ⟨odb, 0, 1, 1⟩) ∧
    (∀ (fetch : Date × Date → Except String (List AemetRow)) (stId : Nat)
      (chunks1 : List (Date × Date)) (c : Date × Date) (chunks2 : List (Date × Date))
      (odb : ObsDB) (msg : String),
      (∀ x ∈ chunks1, ∃ r, fetch x = Except.ok r) → fetch c = .error msg →
      IngestionService.processAemetChunks fetch stId (chunks1 ++ c :: chunks2) odb =
        ⟨(IngestionService.processAemetChunks fetch stId chunks1 odb).odb,
         (IngestionService.processAemetChunks fetch stId chunks1 odb).obs,
         (IngestionService.processAemetChunks fetch stId chunks1 odb).failCount + 1,
         (IngestionService.processAemetChunks fetch stId chunks1 odb).fetchCalls + 1⟩) ∧
    (∀ (env : SyncEnv) (sdb : StationDB) (odb : ObsDB) (k : Nat) (kts : Date),
      WeatherObservationRepository.lookupKey odb k kts ≠ none →
      WeatherObservationRepository.lookupKey
        (IngestionService.sync env sdb odb).2.1 k kts ≠ none) ∧
    (∀ (env : SyncEnv) (sdb : StationDB) (odb : ObsDB) (msg : String),
      env.meteocat.listResult = .error msg →
      (IngestionService.sync env sdb odb).2.2.failures_meteocat = some msg ∧
      (IngestionService.sync env sdb odb).2.2.stations_meteocat = 0 ∧
      (IngestionService.sync env sdb odb).2.2.observations_meteocat = 0 ∧
      (IngestionService.sync env sdb odb).2.2.failures_meteocat_station_errors = 0) ∧
    (∀ (env : SyncEnv) (sdb : StationDB) (odb : ObsDB) (msg : String),
      env.aemet.listResult = .error msg →
      (IngestionService.sync env sdb odb).2.2.failures_aemet = some msg ∧
      (IngestionService.sync env sdb odb).2.2.stations_aemet = 0 ∧
      (IngestionService.sync env sdb odb).2.2.observations_aemet = 0 ∧
      (IngestionService.sync env sdb odb).2.2.failures_aemet_station_errors = 0 ∧
      (IngestionService.sync env sdb odb).2.2.stations_meteocat =
        (IngestionService.meteocatSection env.meteocat env.today sdb odb).1.stations ∧
      (IngestionService.sync env sdb odb).2.2.observations_meteocat =
        (IngestionService.meteocatSection env.meteocat env.today sdb odb).1.obs ∧
      (IngestionService.sync env sdb odb).2.2.failures_meteocat =
        (IngestionService.meteocatSection env.meteocat env.today sdb odb).2 ∧
      (IngestionService.sync env sdb odb).2.1 =
        (IngestionService.meteocatSection env.meteocat env.today sdb odb).1.odb) ∧
    (∀ (env env2 : SyncEnv) (sdb : StationDB) (odb : ObsDB),
      env.aemet = env2.aemet → env.today = env2.today →
      (IngestionService.sync env sdb odb).2.2.stations_aemet =
        (IngestionService.sync env2 sdb odb).2.2.stations_aemet ∧
      (IngestionService.sync env sdb odb).2.2.observations_aemet =
        (IngestionService.sync env2 sdb odb).2.2.observations_aemet ∧
      (IngestionService.sync env sdb odb).2.2.failures_aemet =
        (IngestionService.sync env2 sdb odb).2.2.failures_aemet ∧
      (IngestionService.sync env sdb odb).2.2.failures_aemet_station_errors =
        (IngestionService.sync env2 sdb odb).2.2.failures_aemet_station_errors) ∧
    (∀ (env : MeteocatEnv) (today : Date) (m : MeteocatMeta) (rest : List MeteocatMeta)
      (sdb : StationDB) (odb : ObsDB),
      (IngestionService.processMeteocatStations env today (m :: rest) sdb odb).stations =
        (IngestionService.processMeteocatStation env today sdb odb m).stations +
          (IngestionService.processMeteocatStations env today rest
            (IngestionService.processMeteocatStation env today sdb odb m).sdb
            (IngestionService.processMeteocatStation env today sdb odb m).odb).stations) := by
  refine ⟨IngestionService.processMeteocatDays_error,
    fun fetch stId days1 d days2 odb msg h1 h2 =>
      IngestionService.processMeteocatDays_fail_mid fetch stId days1 d days2 odb msg h1 h2,
    fun fetch stId days odb h =>
      IngestionService.processMeteocatDays_ok_counts fetch stId days odb h,
    IngestionService.processAemetChunks_error,
    fun fetch stId chunks1 c chunks2 odb msg h1 h2 =>
      IngestionService.processAemetChunks_fail_mid fetch stId chunks1 c chunks2 odb msg h1 h2,
    IngestionService.lookup_ne_none_sync,
    IngestionService.sync_meteocat_list_fail,
    IngestionService.sync_aemet_list_fail,
    IngestionService.sync_aemet_independent,
    fun env today m rest sdb odb => rfl⟩

/-- Witness for C6: a run whose Meteocat fetch fails on day 0001-01-02,
with one committed observation for station 9, and environments whose
station-list calls fail. -/
theorem C6_sync_failure_isolation_witness :
    C6fetch ⟨1, 1, 2⟩ = Except.error "boom" ∧
    IngestionService.processMeteocatDays C6fetch 9 [⟨1, 1, 2⟩, ⟨1, 1, 3⟩] C6odb =
      ⟨C6odb, 0, 1, 1⟩ ∧
    (∀ x ∈ [(⟨1, 1, 1⟩ : Date)], ∃ r, C6fetch x = Except.ok r) ∧
    IngestionService.processMeteocatDays C6fetch 9
        ([⟨1, 1, 1⟩] ++ ⟨1, 1, 2⟩ :: [⟨1, 1, 3⟩]) C6odb =
      ⟨(IngestionService.processMeteocatDays C6fetch 9 [⟨1, 1, 1⟩] C6odb).odb,
       (IngestionService.processMeteocatDays C6fetch 9 [⟨1, 1, 1⟩] C6odb).obs,
       (IngestionService.processMeteocatDays C6fetch 9 [⟨1, 1, 1⟩] C6odb).failCount + 1,
       (IngestionService.processMeteocatDays C6fetch 9 [⟨1, 1, 1⟩] C6odb).fetchCalls + 1⟩ ∧
    WeatherObservationRepository.lookupKey C6odb 9 ⟨1, 1, 1⟩ ≠ none ∧
    WeatherObservationRepository.lookupKey
      (IngestionService.sync C6env ⟨[], 0⟩ C6odb).2.1 9 ⟨1, 1, 1⟩ ≠ none ∧
    C6env.meteocat.listResult = Except.error "nope" ∧
    (IngestionService.sync C6env ⟨[], 0⟩ C6odb).2.2.failures_meteocat = some "nope" ∧
    (IngestionService.sync C6env ⟨[], 0⟩ C6odb).2.2.stations_meteocat = 0 ∧
    C6env.aemet = C6envB.aemet ∧ C6env.today = C6envB.today ∧
    (IngestionService.sync C6env ⟨[], 0⟩ C6odb).2.2.failures_aemet =
      (IngestionService.sync C6envB ⟨[], 0⟩ C6odb).2.2.failures_aemet := by
  have T := C6_sync_failure_isolation
  have hok : ∀ x ∈ [(⟨1, 1, 1⟩ : Date)], ∃ r, C6fetch x = Except.ok r := by
    intro x hx
    have hx2 := List.mem_singleton.mp hx
    subst hx2
    exact ⟨.falsy, rfl⟩
  refine ⟨rfl,
    T.1 C6fetch 9 ⟨1, 1, 2⟩ [⟨1, 1, 3⟩] C6odb "boom" rfl,
    hok,
    T.2.1 C6fetch 9 [⟨1, 1, 1⟩] ⟨1, 1, 2⟩ [⟨1, 1, 3⟩] C6odb "boom" hok rfl,
    by decide,
    T.2.2.2.2.2.1 C6env ⟨[], 0⟩ C6odb 9 ⟨1, 1, 1⟩ (by decide),
    rfl,
    (T.2.2.2.2.2.2.1 C6env ⟨[], 0⟩ C6odb "nope" rfl).1,
    (T.2.2.2.2.2.2.1 C6env ⟨[], 0⟩ C6odb "nope" rfl).2.1,
    rfl, rfl,
    (T.2.2.2.2.2.2.2.2.1 C6env C6envB ⟨[], 0⟩ C6odb rfl rfl).2.2.1⟩


/-- C1: the `POST /ingestion/daily` handler never reaches the orchestrator:
`IngestionService` defines no `ingest_daily` method (only `sync`), so the
attribute lookup in the handler raises `AttributeError` and every request
is answered with HTTP 500 — the `{date, stations_upserted,
observations_upserted, failures}` response is never produced, contradicting
the spec and the repository's own integration test, which posts to the
endpoint and expects HTTP 200 with those counters. -/
theorem C1_ingestion_daily_always_500 :
    ("ingest_daily" ∉ IngestionService.methodNames) ∧
    (∀ (env : SyncEnv) (sdb : StationDB) (odb : ObsDB),
      ingestion_daily env sdb odb =
        RouterOutcome.httpException 500 "Ingestion failed: AttributeError") ∧
    (∀ (env : SyncEnv) (sdb : StationDB) (odb : ObsDB) (body : IngestionDailyResponse),
      ingestion_daily env sdb odb ≠ RouterOutcome.ok body) := by
  refine ⟨by decide, fun env sdb odb => ?_, fun env sdb odb body => ?_⟩
  · unfold ingestion_daily
    rw [if_neg (by decide)]
  · unfold ingestion_daily
    rw [if_neg (by decide)]
    exact fun hc => RouterOutcome.noConfusion hc
